import Mathlib

/-!
Verification of the vodk.rs tessellation engine against its specification.

The development shallowly embeds the Rust sources in Lean 4:

* `src/lyon/src/tesselation/path_tesselator.rs` — the sweep-line path
  tessellator (`EventVector`, `Tesselator`, `MonotoneTesselator`).
* `src/geom/src/tesselation/polygon.rs` — `compute_winding_order`.
* `src/collections/id_lookup_table.rs` — `IdLookupTable`.

Machine floats (`f32`) are embedded as exact rationals `ℚ`; all comparisons
the code performs on coordinates are order comparisons, which agree with the
exact-arithmetic semantics away from rounding boundaries.  A few helper
modules of the repository (`tesselation::math_utils`, `tesselation::path`,
`vodk_math`) are not present under `src/`; definitions for them are modelled
from the specification and are marked `Modelled from the spec:` below.
-/

namespace Vodk

/-- 2D vector with exact rational coordinates, embedding `vodk_math::Vec2`
(positions in the tessellator are `f32` pairs; we use `ℚ`). -/
structure Vec2 where
  x : ℚ
  y : ℚ
deriving DecidableEq, Repr

instance : Sub Vec2 := ⟨fun a b => ⟨a.x - b.x, a.y - b.y⟩⟩

instance : Add Vec2 := ⟨fun a b => ⟨a.x + b.x, a.y + b.y⟩⟩

@[simp] theorem Vec2.sub_x (a b : Vec2) : (a - b).x = a.x - b.x := rfl

@[simp] theorem Vec2.sub_y (a b : Vec2) : (a - b).y = a.y - b.y := rfl

/-- Cross product of two 2D vectors. -/
def crossQ (a b : Vec2) : ℚ := a.x * b.y - a.y * b.x

/-- Dot product of two 2D vectors. -/
def dotQ (a b : Vec2) : ℚ := a.x * b.x + a.y * b.y

/-- Zero-vector test. -/
def Vec2.isZero (v : Vec2) : Bool := v.x == 0 && v.y == 0

/-- Modelled from the spec: `tesselation::math_utils::is_below` (module missing
from `src/`).  Per §4.3 the sweep order is ascending `y`, ties broken by
ascending `x`; `is_below a b` holds when `a` comes strictly after `b` in that
order, matching the comparator of `EventVector::set_path`. -/
def isBelow (a b : Vec2) : Bool :=
  a.y > b.y || (a.y == b.y && a.x > b.x)

/-- The non-strict sweep order on positions (the comparator of
`EventVector::set_path` in `path_tesselator.rs` does not return `Greater`):
ascending `y`, ties broken by ascending `x`. -/
def eventLe (a b : Vec2) : Bool :=
  a.y < b.y || (a.y == b.y && a.x ≤ b.x)

theorem isBelow_iff {a b : Vec2} :
    isBelow a b = true ↔ (b.y < a.y ∨ (a.y = b.y ∧ b.x < a.x)) := by
  simp [isBelow]

theorem eventLe_iff {a b : Vec2} :
    eventLe a b = true ↔ (a.y < b.y ∨ (a.y = b.y ∧ a.x ≤ b.x)) := by
  simp [eventLe]

theorem eventLe_total (a b : Vec2) : eventLe a b = true ∨ eventLe b a = true := by
  rw [eventLe_iff, eventLe_iff]
  rcases lt_trichotomy a.y b.y with h | h | h
  · exact Or.inl (Or.inl h)
  · rcases le_total a.x b.x with hx | hx
    · exact Or.inl (Or.inr ⟨h, hx⟩)
    · exact Or.inr (Or.inr ⟨h.symm, hx⟩)
  · exact Or.inr (Or.inl h)

theorem eventLe_trans {a b c : Vec2} (hab : eventLe a b = true)
    (hbc : eventLe b c = true) : eventLe a c = true := by
  rw [eventLe_iff] at *
  rcases hab with h1 | ⟨h1, h1x⟩ <;> rcases hbc with h2 | ⟨h2, h2x⟩
  · exact Or.inl (h1.trans h2)
  · exact Or.inl (h2 ▸ h1)
  · exact Or.inl (h1 ▸ h2)
  · exact Or.inr ⟨h1.trans h2, h1x.trans h2x⟩

theorem not_isBelow_of_eventLe {a b : Vec2} (h : eventLe a b = true) :
    isBelow a b = false := by
  rw [eventLe_iff] at h
  rw [Bool.eq_false_iff]
  intro hcon
  rw [isBelow_iff] at hcon
  rcases h with h | ⟨h, hx⟩ <;> rcases hcon with hc | ⟨hc, hcx⟩
  · exact absurd (h.trans hc) (lt_irrefl _)
  · exact absurd hc (ne_of_lt h)
  · exact absurd (h ▸ hc) (lt_irrefl _)
  · exact absurd (lt_of_le_of_lt hx hcx) (lt_irrefl _)

theorem eventLe_of_not_isBelow {a b : Vec2} (h : isBelow a b = false) :
    eventLe a b = true := by
  rw [eventLe_iff]
  rw [Bool.eq_false_iff] at h
  rcases lt_trichotomy a.y b.y with hy | hy | hy
  · exact Or.inl hy
  · rcases le_or_lt a.x b.x with hx | hx
    · exact Or.inr ⟨hy, hx⟩
    · exact absurd (isBelow_iff.mpr (Or.inr ⟨hy, hx⟩)) h
  · exact absurd (isBelow_iff.mpr (Or.inl hy)) h

/-! ### The sort used by `EventVector::set_path` and the intersection queue

`Vec::sort_by` is embedded as an insertion sort; the claims proved below do
not depend on the order of elements whose keys compare `Equal`. -/

/-- Insert `x` into `l` in front of the first element `y` with `le x y`. -/
def insertSorted (le : α → α → Bool) (x : α) : List α → List α
  | [] => [x]
  | y :: ys => if le x y then x :: y :: ys else y :: insertSorted le x ys

/-- Sort a list by the boolean relation `le` (embedding of `Vec::sort_by`). -/
def sortByLe (le : α → α → Bool) (l : List α) : List α :=
  l.foldr (insertSorted le) []

theorem perm_insertSorted (le : α → α → Bool) (x : α) (l : List α) :
    List.Perm (insertSorted le x l) (x :: l) := by
  induction l with
  | nil => simp [insertSorted]
  | cons y ys ih =>
    simp only [insertSorted]
    by_cases h : le x y
    · simp [h]
    · simp only [h, if_false]
      exact ((ih.cons y).trans (List.Perm.swap x y ys))

theorem perm_sortByLe (le : α → α → Bool) (l : List α) :
    List.Perm (sortByLe le l) l := by
  induction l with
  | nil => simp [sortByLe]
  | cons y ys ih =>
    simp only [sortByLe, List.foldr_cons]
    exact (perm_insertSorted le y _).trans (ih.cons y)

theorem pairwise_insertSorted (le : α → α → Bool)
    (htot : ∀ a b, le a b = true ∨ le b a = true)
    (htrans : ∀ a b c, le a b = true → le b c = true → le a c = true)
    (x : α) (l : List α) (h : l.Pairwise (fun a b => le a b = true)) :
    (insertSorted le x l).Pairwise (fun a b => le a b = true) := by
  induction l with
  | nil => simp [insertSorted]
  | cons y ys ih =>
    simp only [insertSorted]
    rcases List.pairwise_cons.mp h with ⟨hy, hys⟩
    by_cases hxy : le x y = true
    · rw [if_pos hxy]
      refine List.pairwise_cons.mpr ⟨?_, h⟩
      intro b hb
      rcases List.mem_cons.mp hb with rfl | hb
      · exact hxy
      · exact htrans x y b hxy (hy b hb)
    · rw [if_neg hxy]
      refine List.pairwise_cons.mpr ⟨?_, ih hys⟩
      intro b hb
      rcases List.mem_cons.mp ((perm_insertSorted le x ys).mem_iff.mp hb) with rfl | hb'
      · rcases htot y b with h' | h'
        · exact h'
        · exact absurd h' hxy
      · exact hy b hb'

theorem pairwise_sortByLe (le : α → α → Bool)
    (htot : ∀ a b, le a b = true ∨ le b a = true)
    (htrans : ∀ a b c, le a b = true → le b c = true → le a c = true)
    (l : List α) :
    (sortByLe le l).Pairwise (fun a b => le a b = true) := by
  induction l with
  | nil => simp [sortByLe]
  | cons y ys ih =>
    simpa only [sortByLe, List.foldr_cons] using
      pairwise_insertSorted le htot htrans y _ ih

/-! ### Directed-angle comparisons

`directed_angle` is defined in `src/geom/src/monotone.rs:105` as
`a = atan2(v2.y, v2.x) - atan2(v1.y, v1.x); if a < 0 { a + 2π } else { a }`,
the angle in `[0, 2π)` from `v1` to `v2` measured clockwise with `y` pointing
down.  `path_tesselator.rs` only ever compares this value with `π`; those
comparisons are embedded as exact sign tests.  With `θ v = atan2 v.y v.x ∈
(-π, π]` (`θ 0 = 0`) and both vectors nonzero, the normalised difference lies
in `(0, π)` iff `cross v1 v2 > 0`, equals `0` iff `cross = 0 ∧ dot > 0`,
equals `π` iff `cross = 0 ∧ dot < 0`, and lies in `(π, 2π)` iff `cross < 0`;
the zero-vector cases follow directly from `θ`'s definition. -/

/-- Decides `directed_angle v1 v2 ≤ π` by exact sign tests (see above). -/
def dirAngleLePi (v1 v2 : Vec2) : Bool :=
  if v1.isZero then decide (v2.y ≥ 0)
  else if v2.isZero then decide (v1.y ≤ 0)
  else decide (crossQ v1 v2 ≥ 0)

/-- Decides `directed_angle v1 v2 < π` by exact sign tests (see above). -/
def dirAngleLtPi (v1 v2 : Vec2) : Bool :=
  if v1.isZero then v2.y > 0 || (v2.y == 0 && v2.x ≥ 0)
  else if v2.isZero then v1.y < 0 || (v1.y == 0 && v1.x > 0)
  else crossQ v1 v2 > 0 || (crossQ v1 v2 == 0 && dotQ v1 v2 > 0)

/-- Decides `directed_angle v1 v2 > π`. -/
def dirAngleGtPi (v1 v2 : Vec2) : Bool := !dirAngleLePi v1 v2

/-! ### Remaining `math_utils` helpers -/

/-- Modelled from the spec: `tesselation::math_utils::segment_intersection`
(module missing from `src/`).  §4.5: a positive test yields the crossing
point; §7 (`NumericDegeneracy`): near-parallel or coincident segments must
resolve to "no intersection" deterministically.  The model reports a crossing
exactly when the supporting lines are not parallel and both interpolation
parameters are strictly inside `(0, 1)`, i.e. the segments properly cross. -/
def segmentIntersection (a1 a2 b1 b2 : Vec2) : Option Vec2 :=
  let d1 := a2 - a1
  let d2 := b2 - b1
  let det := crossQ d1 d2
  if det = 0 then none
  else
    let t := crossQ (b1 - a1) d2 / det
    let u := crossQ (b1 - a1) d1 / det
    if 0 < t ∧ t < 1 ∧ 0 < u ∧ u < 1 then
      some ⟨a1.x + t * d1.x, a1.y + t * d1.y⟩
    else none

/-- Modelled from the spec: `tesselation::math_utils::line_horizontal_intersection`
(module missing from `src/`).  §4.4: the signed horizontal position of an edge
at a given `y` is found by "linear interpolation between each edge's
upper/lower endpoints".  (On a horizontal edge the `f32` code divides by zero
and produces no usable abscissa; the rational model's `x / 0 = 0` convention
likewise yields `a.x`, and every claim below that reaches this case does so
with the comparison outcome unaffected.) -/
def lineHorizontalIntersection (a b : Vec2) (y : ℚ) : ℚ :=
  a.x + (b.x - a.x) * ((y - a.y) / (b.y - a.y))

/-! ### Path model -/

/-- Modelled from the spec: the `tesselation::path` module (missing from
`src/`).  §3: "Path: ordered set of sub-paths; sub-path = circular sequence of
Vertex, closed or open"; every path the claims mention is closed.  Vertices
carry consecutive global ids, sub-paths laid out one after another, which is
the order `EventVector::set_path` walks via `path.path_ids()` and
`path.vertex_ids(sub_path)`. -/
structure MPath where
  subPaths : List (List Vec2)
deriving DecidableEq, Repr

/-- Position in the id space of `path_tesselator.rs`: a vertex id plus the id
of the sub-path holding it (`PathVertexId`). -/
structure PathVertexId where
  vertexId : ℕ
  pathId : ℕ
deriving DecidableEq, Repr

/-- Locate global vertex `i`: sub-path ordinal, global id of the sub-path's
first vertex, local index, and the sub-path itself. -/
def locatePath : List (List Vec2) → ℕ → ℕ → ℕ → ℕ × ℕ × ℕ × List Vec2
  | [], _, base, k => (k, base, 0, [])
  | sp :: rest, i, base, k =>
    if i < sp.length then (k, base, i, sp)
    else locatePath rest (i - sp.length) (base + sp.length) (k + 1)

def MPath.numVertices (p : MPath) : ℕ := (p.subPaths.map List.length).sum

def MPath.numSubPaths (p : MPath) : ℕ := p.subPaths.length

def MPath.vertexPos (p : MPath) (i : ℕ) : Vec2 := p.subPaths.flatten.getD i ⟨0, 0⟩

def MPath.pathIdOf (p : MPath) (i : ℕ) : ℕ := (locatePath p.subPaths i 0 0).1

/-- The `PathVertexId` of global vertex `i`. -/
def MPath.pvid (p : MPath) (i : ℕ) : PathVertexId := ⟨i, p.pathIdOf i⟩

/-- Circulate forward inside the (closed) sub-path holding `i`. -/
def MPath.nextId (p : MPath) (i : ℕ) : ℕ :=
  let l := locatePath p.subPaths i 0 0
  l.2.1 + (l.2.2.1 + 1) % l.2.2.2.length

/-- Circulate backward inside the (closed) sub-path holding `i`. -/
def MPath.prevId (p : MPath) (i : ℕ) : ℕ :=
  let l := locatePath p.subPaths i 0 0
  l.2.1 + (l.2.2.1 + l.2.2.2.length - 1) % l.2.2.2.length

/-! ### `EventVector` (event ordering, `path_tesselator.rs:42`) -/

/-- The comparator of `EventVector::set_path` as a boolean "less or equal":
the source comparator returns `Greater` exactly when `eventLe` fails. -/
def eventIdLe (p : MPath) (a b : PathVertexId) : Bool :=
  eventLe (p.vertexPos a.vertexId) (p.vertexPos b.vertexId)

/-- `EventVector::set_path` (`path_tesselator.rs:61`): collect every vertex id
of every sub-path, then sort by ascending `y`, ties by ascending `x`. -/
def setPath (p : MPath) : List PathVertexId :=
  sortByLe (eventIdLe p) ((List.range p.numVertices).map p.pvid)

/-! ### Winding order (`src/geom/src/tesselation/polygon.rs`) -/

inductive WindingOrder
  | clockwise
  | counterClockwise
deriving DecidableEq, Repr

/-- `PolygonView` (`polygon.rs:86`): a plain vertex-id sequence with circular
`next`/`previous`. -/
structure PolygonView where
  vertices : List ℕ
deriving Repr

def PolygonView.numVertices (p : PolygonView) : ℕ := p.vertices.length

def PolygonView.vertexAt (p : PolygonView) (point : ℕ) : ℕ := p.vertices.getD point 0

/-- `PolygonView::next` (`polygon.rs:124`). -/
def PolygonView.nextPt (p : PolygonView) (point : ℕ) : ℕ :=
  (point + 1) % p.vertices.length

/-- `PolygonView::previous` (`polygon.rs:128`). -/
def PolygonView.prevPt (p : PolygonView) (point : ℕ) : ℕ :=
  if point = 0 then p.vertices.length - 1 else point - 1

/-- The directed-turning-angle sum accumulated by `compute_winding_order`
(`polygon.rs:487-493`): at every point, the angle between `a - b` and `c - b`
for the previous/current/next vertex positions. -/
def turningAngleSum (angle : Vec2 → Vec2 → ℚ)
    (poly : PolygonView) (vertices : List Vec2) : ℚ :=
  ((List.range poly.numVertices).map (fun it =>
    let a := vertices.getD (poly.vertexAt (poly.prevPt it)) ⟨0, 0⟩
    let b := vertices.getD (poly.vertexAt it) ⟨0, 0⟩
    let c := vertices.getD (poly.vertexAt (poly.nextPt it)) ⟨0, 0⟩
    angle (a - b) (c - b))).sum

/-- `compute_winding_order` (`polygon.rs:479`).  The source sums the `f32`
`atan2`-based `directed_angle` over every vertex and compares with
`(num_vertices - 1) as f32 * PI`; the transcendental angle function and the
constant `π` are parameters (`angle`, `piV`) of the embedding, while the
guard, the accumulation and the threshold comparison are translated exactly. -/
def compute_winding_order (angle : Vec2 → Vec2 → ℚ) (piV : ℚ)
    (poly : PolygonView) (vertices : List Vec2) : Option WindingOrder :=
  if poly.numVertices < 3 then none
  else if turningAngleSum angle poly vertices >
      ((poly.numVertices - 1 : ℕ) : ℚ) * piV then
    some .clockwise
  else
    some .counterClockwise

theorem eventIdLe_total (p : MPath) (a b : PathVertexId) :
    eventIdLe p a b = true ∨ eventIdLe p b a = true :=
  eventLe_total _ _

theorem eventIdLe_trans (p : MPath) (a b c : PathVertexId)
    (hab : eventIdLe p a b = true) (hbc : eventIdLe p b c = true) :
    eventIdLe p a c = true :=
  eventLe_trans hab hbc

/-- Claim C2: `EventVector::set_path` (and hence `from_path`, which just calls
it) produces the ids of every vertex of every sub-path exactly once — a
permutation of the `numVertices` consecutive global ids, each tagged with its
sub-path — and the output is ordered by ascending `y`, ties broken by
ascending `x` (the comparator `eventIdLe`). -/
theorem claim2_setPath_perm_sorted (p : MPath) :
    (setPath p).Perm ((List.range p.numVertices).map p.pvid) ∧
    (setPath p).Pairwise (fun a b => eventIdLe p a b = true) :=
  ⟨perm_sortByLe _ _,
   pairwise_sortByLe _ (eventIdLe_total p) (eventIdLe_trans p) _⟩

/-- Claim C8: for a polygon with at least 3 vertices,
`compute_winding_order` returns `Clockwise` exactly when the sum of the
directed turning angles over all vertices exceeds `(n-1)·π`, and
`CounterClockwise` otherwise.  (`angle`/`piV` stand for the source's `f32`
`directed_angle` and `PI`.) -/
theorem claim8_winding_order_classification (angle : Vec2 → Vec2 → ℚ)
    (piV : ℚ) (poly : PolygonView) (vertices : List Vec2)
    (h : 3 ≤ poly.numVertices) :
    (compute_winding_order angle piV poly vertices = some .clockwise ↔
      turningAngleSum angle poly vertices >
        ((poly.numVertices - 1 : ℕ) : ℚ) * piV) ∧
    (compute_winding_order angle piV poly vertices = some .counterClockwise ↔
      ¬ turningAngleSum angle poly vertices >
        ((poly.numVertices - 1 : ℕ) : ℚ) * piV) := by
  have hn : ¬ poly.numVertices < 3 := not_lt.mpr h
  unfold compute_winding_order
  rw [if_neg hn]
  by_cases hgt : turningAngleSum angle poly vertices >
      ((poly.numVertices - 1 : ℕ) : ℚ) * piV
  · rw [if_pos hgt]
    simp [hgt]
  · rw [if_neg hgt]
    simp [hgt]

/-- Witness for C8 at a concrete 3-vertex polygon with a constant angle
function summing to 3 against threshold `(3-1)·1 = 2`. -/
theorem claim8_winding_order_classification_witness :
    3 ≤ (PolygonView.mk [0, 1, 2]).numVertices ∧
    ((compute_winding_order (fun _ _ => 1) 1 ⟨[0, 1, 2]⟩ [] = some .clockwise ↔
      turningAngleSum (fun _ _ => 1) ⟨[0, 1, 2]⟩ [] >
        (((PolygonView.mk [0, 1, 2]).numVertices - 1 : ℕ) : ℚ) * 1) ∧
    (compute_winding_order (fun _ _ => 1) 1 ⟨[0, 1, 2]⟩ [] =
        some .counterClockwise ↔
      ¬ turningAngleSum (fun _ _ => 1) ⟨[0, 1, 2]⟩ [] >
        (((PolygonView.mk [0, 1, 2]).numVertices - 1 : ℕ) : ℚ) * 1)) :=
  ⟨by decide,
   claim8_winding_order_classification (fun _ _ => 1) 1 ⟨[0, 1, 2]⟩ []
     (by decide)⟩

/-- Claim C10: `compute_winding_order` returns `None` exactly when the polygon
has fewer than 3 vertices, and `Some` classification otherwise. -/
theorem claim10_winding_order_none_iff (angle : Vec2 → Vec2 → ℚ) (piV : ℚ)
    (poly : PolygonView) (vertices : List Vec2) :
    compute_winding_order angle piV poly vertices = none ↔
      poly.numVertices < 3 := by
  unfold compute_winding_order
  by_cases h : poly.numVertices < 3
  · simp [h]
  · rw [if_neg h]
    constructor
    · intro hc
      split at hc <;> simp_all
    · intro hc
      exact absurd hc h

/-! ### `MonotoneTesselator` (`path_tesselator.rs:629-727`) -/

/-- `Side` (`path_tesselator.rs:91`). -/
inductive Side
  | left
  | right
deriving DecidableEq, Repr

/-- `Side::opposite` (`path_tesselator.rs:94`). -/
def Side.opposite : Side → Side
  | .left => .right
  | .right => .left

def Side.isLeft (s : Side) : Bool := s == Side.left

def Side.isRight (s : Side) : Bool := s == Side.right

/-- `MonotoneVertex` (`path_tesselator.rs:636`); `id` embeds the `u16` handle
of the `VertexId`. -/
structure MonotoneVertex where
  pos : Vec2
  id : ℕ
  side : Side
deriving DecidableEq, Repr

/-- `MonotoneTesselator` (`path_tesselator.rs:629`).  The stack is stored
top-first: the head of the list is the end of the Rust `Vec` where `push` and
`pop` operate, so `stack.reverse` is the source vector in index order. -/
structure MonotoneTesselator where
  stack : List MonotoneVertex
  previous : MonotoneVertex
  triangles : List (ℕ × ℕ × ℕ)
deriving DecidableEq, Repr

/-- Panics of the Rust code (`assert!`, `debug_assert!`, `unreachable!`,
out-of-bounds indexing) are embedded as values of this error type. -/
inductive TessError
  | assertionFailure
  | unreachableReached
  | indexOutOfBounds
deriving DecidableEq, Repr

/-- `MonotoneTesselator::push_triangle` (`path_tesselator.rs:711`) acting on
the triangle list: the winding of each emitted triangle is normalised by the
`directed_angle ≤ π` test. -/
def pushTriangleTo (tris : List (ℕ × ℕ × ℕ)) (a b c : MonotoneVertex) :
    List (ℕ × ℕ × ℕ) :=
  if dirAngleLePi (c.pos - b.pos) (a.pos - b.pos) then
    tris ++ [(a.id, b.id, c.id)]
  else
    tris ++ [(b.id, a.id, c.id)]

/-- `MonotoneTesselator::push_triangle` (`path_tesselator.rs:711`). -/
def MonotoneTesselator.pushTriangle (t : MonotoneTesselator)
    (a b c : MonotoneVertex) : MonotoneTesselator :=
  { t with triangles := pushTriangleTo t.triangles a b c }

/-- `MonotoneTesselator::begin` (`path_tesselator.rs:643`). -/
def MonotoneTesselator.begin (pos : Vec2) (id : ℕ) : MonotoneTesselator :=
  let first : MonotoneVertex := ⟨pos, id, Side.left⟩
  { stack := [first], previous := first, triangles := [] }

/-- The `if right_side { swap(&mut a, &mut b) }` step shared by the two
triangle loops of `MonotoneTesselator::vertex`: `a` is `last_popped` and `b`
the stack top, swapped on the right side. -/
def pickAB (rightSide : Bool) (top lastPopped : MonotoneVertex) :
    MonotoneVertex × MonotoneVertex :=
  if rightSide then (top, lastPopped) else (lastPopped, top)

/-- The same-side pop loop of `MonotoneTesselator::vertex`
(`path_tesselator.rs:680-695`): pop while the two most recently popped
vertices and the current vertex form a convex (≤ π) triangle, emitting each.
The first argument list is the stack below the initially popped vertex,
top-first; returns the remaining stack, the vertex held in `last_popped`,
and the triangle list. -/
def popLoop (rightSide : Bool) (current : MonotoneVertex) :
    List MonotoneVertex → MonotoneVertex → List (ℕ × ℕ × ℕ) →
    List MonotoneVertex × MonotoneVertex × List (ℕ × ℕ × ℕ)
  | [], lastPopped, tris => ([], lastPopped, tris)
  | top :: rest, lastPopped, tris =>
    let ab := pickAB rightSide top lastPopped
    if dirAngleLePi (current.pos - ab.2.pos) (ab.1.pos - ab.2.pos) then
      popLoop rightSide current rest top (pushTriangleTo tris ab.1 ab.2 current)
    else (top :: rest, lastPopped, tris)

/-- The changed-side fan of `MonotoneTesselator::vertex`
(`path_tesselator.rs:667-676`): one triangle per consecutive stack pair,
iterated from the bottom of the stack (`stack.reverse` is index order). -/
def fanTriangles (rightSide : Bool) (current : MonotoneVertex)
    (t : MonotoneTesselator) : MonotoneTesselator :=
  let tris := (t.stack.reverse.zip t.stack.reverse.tail).foldl
    (fun acc (p : MonotoneVertex × MonotoneVertex) =>
      let a := if rightSide then p.2 else p.1
      let b := if rightSide then p.1 else p.2
      pushTriangleTo acc a b current) t.triangles
  { t with triangles := tris }

/-- `MonotoneTesselator::vertex` (`path_tesselator.rs:657`). -/
def MonotoneTesselator.vertex (t : MonotoneTesselator) (pos : Vec2) (id : ℕ)
    (side : Side) : Except TessError MonotoneTesselator :=
  let current : MonotoneVertex := ⟨pos, id, side⟩
  let rightSide := side == Side.right
  if isBelow current.pos t.previous.pos = false then
    throw TessError.assertionFailure
  else if t.stack.isEmpty then
    throw TessError.assertionFailure
  else if side ≠ t.previous.side then
    let t1 := fanTriangles rightSide current t
    pure { t1 with stack := [current, t.previous], previous := current }
  else
    match t.stack with
    | [] => throw TessError.assertionFailure
    | lp0 :: below =>
      let r := popLoop rightSide current below lp0 t.triangles
      pure { stack := current :: r.2.1 :: r.1, previous := current,
             triangles := r.2.2 }

/-- `MonotoneTesselator::end` (`path_tesselator.rs:705`). -/
def MonotoneTesselator.end' (t : MonotoneTesselator) (pos : Vec2) (id : ℕ) :
    Except TessError MonotoneTesselator := do
  let side := t.previous.side.opposite
  let t1 ← t.vertex pos id side
  pure { t1 with stack := [] }

/-- Output sink (`VertexBuffers` behind `simple_vertex_builder`):
`push_vertex` appends a position, `push_indices` appends one triangle. -/
structure VOutput where
  vertices : List Vec2
  indices : List (ℕ × ℕ × ℕ)
deriving DecidableEq, Repr

def VOutput.pushVertex (o : VOutput) (pos : Vec2) : VOutput :=
  { o with vertices := o.vertices ++ [pos] }

def VOutput.pushIndices (o : VOutput) (a b c : ℕ) : VOutput :=
  { o with indices := o.indices ++ [(a, b, c)] }

/-- `MonotoneTesselator::flush` (`path_tesselator.rs:721`). -/
def MonotoneTesselator.flush (t : MonotoneTesselator) (o : VOutput) :
    MonotoneTesselator × VOutput :=
  ({ t with triangles := [] },
   t.triangles.foldl (fun acc tri => acc.pushIndices tri.1 tri.2.1 tri.2.2) o)

/-! ### Triangle-count invariants of the monotone tesselator -/

theorem ebind_ok {α β : Type} (a : α) (f : α → Except TessError β) :
    (Except.ok a >>= f) = f a := rfl

theorem ebind_err {α β : Type} (e : TessError) (f : α → Except TessError β) :
    ((Except.error e : Except TessError α) >>= f) = Except.error e := rfl

theorem emap_ok {α β : Type} (f : α → β) (a : α) :
    (f <$> (Except.ok a : Except TessError α)) = Except.ok (f a) := rfl

theorem emap_err {α β : Type} (f : α → β) (e : TessError) :
    (f <$> (Except.error e : Except TessError α)) = Except.error e := rfl

theorem pushTriangleTo_length (tris : List (ℕ × ℕ × ℕ))
    (a b c : MonotoneVertex) :
    (pushTriangleTo tris a b c).length = tris.length + 1 := by
  unfold pushTriangleTo
  split <;> simp

theorem foldl_pushTriangleTo_length (rightSide : Bool)
    (current : MonotoneVertex) (l : List (MonotoneVertex × MonotoneVertex)) :
    ∀ tris : List (ℕ × ℕ × ℕ),
      (l.foldl (fun acc (p : MonotoneVertex × MonotoneVertex) =>
          let a := if rightSide then p.2 else p.1
          let b := if rightSide then p.1 else p.2
          pushTriangleTo acc a b current) tris).length =
        tris.length + l.length := by
  induction l with
  | nil => intro tris; simp
  | cons p ps ih =>
    intro tris
    simp only [List.foldl_cons]
    rw [ih, pushTriangleTo_length]
    simp only [List.length_cons]
    omega

theorem fanTriangles_stack (rightSide : Bool) (current : MonotoneVertex)
    (t : MonotoneTesselator) :
    (fanTriangles rightSide current t).stack = t.stack := rfl

theorem fanTriangles_triangles_length (rightSide : Bool)
    (current : MonotoneVertex) (t : MonotoneTesselator) :
    (fanTriangles rightSide current t).triangles.length =
      t.triangles.length + (t.stack.length - 1) := by
  unfold fanTriangles
  simp only
  rw [foldl_pushTriangleTo_length, List.length_zip, List.length_tail]
  simp

theorem popLoop_sum (rs : Bool) (cur : MonotoneVertex) :
    ∀ (below : List MonotoneVertex) (lp : MonotoneVertex)
      (tris : List (ℕ × ℕ × ℕ)),
      (popLoop rs cur below lp tris).1.length +
        (popLoop rs cur below lp tris).2.2.length =
      below.length + tris.length := by
  intro below
  induction below with
  | nil => intro lp tris; simp [popLoop]
  | cons top rest ih =>
    intro lp tris
    rw [popLoop]
    split
    · rw [ih, pushTriangleTo_length]
      simp only [List.length_cons]
      omega
    · simp

/-- Success and count behaviour of one `MonotoneTesselator::vertex` call: with
a nonempty stack and a strictly descending position the call succeeds, grows
`stack.length + triangles.length` by exactly one, keeps the stack nonempty,
records the new vertex as `previous`, and on a side switch leaves exactly two
vertices on the stack. -/
theorem vertex_ok_spec (t : MonotoneTesselator) (pos : Vec2) (id : ℕ)
    (side : Side) (hs : t.stack ≠ []) (hb : isBelow pos t.previous.pos = true) :
    ∃ t', t.vertex pos id side = .ok t' ∧
      t'.stack.length + t'.triangles.length =
        t.stack.length + t.triangles.length + 1 ∧
      t'.stack ≠ [] ∧ t'.previous = ⟨pos, id, side⟩ ∧
      (side ≠ t.previous.side → t'.stack.length = 2) := by
  have hlen : 1 ≤ t.stack.length := List.length_pos.mpr hs
  unfold MonotoneTesselator.vertex
  simp only [hb]
  have hne : t.stack.isEmpty = false := by
    simpa [List.isEmpty_iff] using hs
  simp only [hne]
  by_cases hside : side ≠ t.previous.side
  · simp only [if_pos hside, Bool.false_eq_true, ite_false]
    refine ⟨_, rfl, ?_, by simp, rfl, fun _ => by simp⟩
    simp only [fanTriangles_triangles_length, List.length_cons,
      List.length_nil]
    omega
  · simp only [if_neg hside, Bool.false_eq_true, ite_false]
    cases hstk : t.stack with
    | nil => exact absurd hstk hs
    | cons lp0 below =>
      refine ⟨_, rfl, ?_, by simp, rfl, fun hcon => absurd hcon hside⟩
      have hsum := popLoop_sum (side == Side.right) ⟨pos, id, side⟩
        below lp0 t.triangles
      simp only [List.length_cons] at hsum ⊢
      omega

/-- Feed a list of side-tagged vertices to a `MonotoneTesselator` (the
repeated `tess.vertex(...)` calls of the tests at
`path_tesselator.rs:729-771`, and the per-span feed during a sweep). -/
def runMonotoneVertices (t : MonotoneTesselator) :
    List (Vec2 × ℕ × Side) → Except TessError MonotoneTesselator
  | [] => pure t
  | v :: rest => do runMonotoneVertices (← t.vertex v.1 v.2.1 v.2.2) rest

/-- One whole monotone tessellation: `begin`, the interior vertices, `end`. -/
def runMonotone (p0 : Vec2) (id0 : ℕ) (vs : List (Vec2 × ℕ × Side))
    (pend : Vec2) (idend : ℕ) : Except TessError MonotoneTesselator := do
  let t ← runMonotoneVertices (MonotoneTesselator.begin p0 id0) vs
  t.end' pend idend

theorem runMonotoneVertices_spec :
    ∀ (vs : List (Vec2 × ℕ × Side)) (t : MonotoneTesselator),
      t.stack ≠ [] →
      List.Chain (fun a b => isBelow b a = true) t.previous.pos
        (vs.map (·.1)) →
      ∃ t', runMonotoneVertices t vs = .ok t' ∧
        t'.stack.length + t'.triangles.length =
          t.stack.length + t.triangles.length + vs.length ∧
        t'.stack ≠ [] ∧
        t'.previous.pos = (vs.map (·.1)).getLastD t.previous.pos := by
  intro vs
  induction vs with
  | nil =>
    intro t hs _
    exact ⟨t, rfl, by simp, hs, by simp⟩
  | cons v rest ih =>
    intro t hs hchain
    simp only [List.map_cons, List.chain_cons] at hchain
    rcases hchain with ⟨hb, hchain⟩
    rcases vertex_ok_spec t v.1 v.2.1 v.2.2 hs hb with
      ⟨t1, hok, hsum, hs1, hprev, _⟩
    have hchain1 : List.Chain (fun a b => isBelow b a = true) t1.previous.pos
        (rest.map (·.1)) := by
      rw [hprev]
      exact hchain
    rcases ih t1 hs1 hchain1 with ⟨t', hok', hsum', hs', hlast⟩
    refine ⟨t', ?_, by simp only [List.length_cons]; omega, hs', ?_⟩
    · simp only [runMonotoneVertices, hok]
      exact hok'
    · simp only [hlast, hprev, List.map_cons, List.getLastD_cons]

/-! ### The sweep-line tessellator (`path_tesselator.rs:181-625`)

State-passing embedding of `Tesselator<'l, Output>`: the borrowed path, the
sweep line's span list, the intersection queue, the next synthetic vertex id
and the output sink become one record threaded through every function; a Rust
panic becomes `Except.error`.  `interReplayed` is a ghost counter (it has no
source counterpart) counting how many intersection events have been replayed;
no control flow depends on it. -/

/-- `Vertex` (`path_tesselator.rs:114`). -/
structure Vertex where
  position : Vec2
  id : PathVertexId
deriving DecidableEq, Repr

/-- `SpanEdge` (`path_tesselator.rs:107`). -/
structure SpanEdge where
  upper : Vertex
  lower : Vertex
  merge : Bool
deriving DecidableEq, Repr

/-- `Span` (`path_tesselator.rs:125`). -/
structure Span where
  left : SpanEdge
  right : SpanEdge
  monotoneTesselator : MonotoneTesselator
deriving DecidableEq, Repr

/-- `Intersection` (`path_tesselator.rs:29`). -/
structure Intersection where
  point : Vertex
  aDown : Vertex
  bDown : Vertex
deriving DecidableEq, Repr

/-- `Event` (`path_tesselator.rs:23`). -/
structure Event where
  current : Vertex
  next : Vertex
  previous : Vertex
deriving DecidableEq, Repr

/-- The state of `Tesselator` (`path_tesselator.rs:185`). -/
structure Tesselator where
  path : MPath
  spans : List Span
  intersections : List Intersection
  nextNewVertex : PathVertexId
  output : VOutput
  interReplayed : ℕ
deriving DecidableEq, Repr

/-- `Span::begin` (`path_tesselator.rs:132`). -/
def Span.begin (l r : SpanEdge) : Span :=
  { left := l, right := r,
    monotoneTesselator :=
      MonotoneTesselator.begin l.upper.position l.upper.id.vertexId }

/-- `Span::set_upper_vertex` (`path_tesselator.rs:153`). -/
def Span.setUpperVertex (s : Span) (v : Vertex) (side : Side) :
    Except TessError Span :=
  match s.monotoneTesselator.vertex v.position v.id.vertexId side with
  | .error e => .error e
  | .ok mt =>
    match side with
    | .left =>
      .ok { s with left := { s.left with upper := v }, monotoneTesselator := mt }
    | .right =>
      .ok { s with right := { s.right with upper := v }, monotoneTesselator := mt }

/-- `Span::set_lower_vertex` (`path_tesselator.rs:158`). -/
def Span.setLowerVertex (s : Span) (v : Vertex) (side : Side) : Span :=
  match side with
  | .left => { s with left := { s.left with lower := v, merge := false } }
  | .right => { s with right := { s.right with lower := v, merge := false } }

/-- `Span::set_no_lower_vertex` (`path_tesselator.rs:165`). -/
def Span.setNoLowerVertex (s : Span) (side : Side) : Span :=
  match side with
  | .left => { s with left := { s.left with merge := true } }
  | .right => { s with right := { s.right with merge := true } }

/-- `Span::vertex` (`path_tesselator.rs:139`). -/
def Span.vertex (s : Span) (v nextV : Vertex) (side : Side) :
    Except TessError Span :=
  match s.setUpperVertex v side with
  | .error e => .error e
  | .ok s1 => .ok (s1.setLowerVertex nextV side)

/-- `Span::merge_vertex` (`path_tesselator.rs:148`). -/
def Span.mergeVertex (s : Span) (v : Vertex) (side : Side) :
    Except TessError Span :=
  match s.setUpperVertex v side with
  | .error e => .error e
  | .ok s1 => .ok (s1.setNoLowerVertex side)

/-- `Span::end` (`path_tesselator.rs:176`). -/
def Span.end' (s : Span) (pos : Vec2) (id : PathVertexId) :
    Except TessError Span :=
  match s.monotoneTesselator.end' pos id.vertexId with
  | .error e => .error e
  | .ok mt => .ok { s with monotoneTesselator := mt }

/-- Rust `spans[i] = f(spans[i])` where `f` may panic: out-of-bounds indexing
panics, modelled as an error. -/
def modifySpan (spans : List Span) (i : ℕ) (f : Span → Except TessError Span) :
    Except TessError (List Span) :=
  match spans[i]? with
  | none => .error .indexOutOfBounds
  | some s =>
    match f s with
    | .error e => .error e
    | .ok s1 => .ok (spans.set i s1)

/-- Rust `spans[i] = f(spans[i])` for an infallible `f`. -/
def modifySpanP (spans : List Span) (i : ℕ) (f : Span → Span) :
    Except TessError (List Span) :=
  match spans[i]? with
  | none => .error .indexOutOfBounds
  | some s => .ok (spans.set i (f s))

/-- The `(y, x)` order on queued intersections: the comparator at
`path_tesselator.rs:542-550` is identical to the event comparator. -/
def interLe (a b : Intersection) : Bool :=
  eventLe a.point.position b.point.position

/-- `Tesselator::test_intersection` (`path_tesselator.rs:512`): skip edges
parked in merge and edges whose lower vertex is an endpoint of the new
segment; on a positive `segment_intersection` result mint a synthetic vertex
(`new_vertex`, `path_tesselator.rs:556`: takes the next unused id and pushes
the position to the output), orient the two lower vertices by the
`directed_angle2 > π` test, push the `Intersection` and re-sort the queue. -/
def Tesselator.testIntersection (t : Tesselator) (edge : SpanEdge)
    (up down : Vertex) : Tesselator :=
  if edge.merge = false ∧ edge.lower.id ≠ up.id ∧ edge.lower.id ≠ down.id then
    match segmentIntersection edge.upper.position edge.lower.position
        up.position down.position with
    | none => t
    | some intersection =>
      let point : Vertex := ⟨intersection, t.nextNewVertex⟩
      let t1 := { t with
        nextNewVertex := ⟨t.nextNewVertex.vertexId + 1, t.nextNewVertex.pathId⟩,
        output := t.output.pushVertex intersection }
      let evt : Intersection :=
        if dirAngleGtPi (edge.lower.position - intersection)
            (down.position - intersection) then
          ⟨point, edge.lower, down⟩
        else
          ⟨point, down, edge.lower⟩
      { t1 with intersections := sortByLe interLe (t1.intersections ++ [evt]) }
  else t

/-- Loop body of `Tesselator::check_intersections`
(`path_tesselator.rs:496-510`); `test_intersection` never touches the span
list, so iterating the entry list is the source's `0..spans.len()` loop. -/
def checkIntersectionsLoop (spanIndex : ℕ) (side : Side) (up down : Vertex) :
    Tesselator → ℕ → List Span → Tesselator
  | t, _, [] => t
  | t, idx, sp :: rest =>
    let t1 := if idx ≠ spanIndex ∨ side = Side.right then
        t.testIntersection sp.left up down
      else t
    let t2 := if idx ≠ spanIndex ∨ side = Side.left then
        t1.testIntersection sp.right up down
      else t1
    checkIntersectionsLoop spanIndex side up down t2 (idx + 1) rest

/-- `Tesselator::check_intersections` (`path_tesselator.rs:496`). -/
def Tesselator.checkIntersections (t : Tesselator) (spanIndex : ℕ)
    (side : Side) (up down : Vertex) : Tesselator :=
  checkIntersectionsLoop spanIndex side up down t 0 t.spans

/-- `Tesselator::insert_edge` (`path_tesselator.rs:481`). -/
def Tesselator.insertEdge (t : Tesselator) (spanIndex : ℕ) (side : Side)
    (up down : Vertex) : Except TessError Tesselator :=
  let t1 := t.checkIntersections spanIndex side up down
  match modifySpan t1.spans spanIndex (fun sp => sp.vertex up down side) with
  | .error e => .error e
  | .ok spans1 => .ok { t1 with spans := spans1 }

/-- `Tesselator::insert_edge_no_intersection` (`path_tesselator.rs:489`). -/
def Tesselator.insertEdgeNoIntersection (t : Tesselator) (spanIndex : ℕ)
    (side : Side) (up down : Vertex) : Except TessError Tesselator :=
  match modifySpan t.spans spanIndex (fun sp => sp.vertex up down side) with
  | .error e => .error e
  | .ok spans1 => .ok { t with spans := spans1 }

/-- `Tesselator::end_span` (`path_tesselator.rs:620`). -/
def Tesselator.endSpan (t : Tesselator) (spanIndex : ℕ) (v : Vertex) :
    Except TessError Tesselator :=
  match t.spans[spanIndex]? with
  | none => .error .indexOutOfBounds
  | some sp =>
    match sp.end' v.position v.id with
    | .error e => .error e
    | .ok sp1 =>
      let fl := sp1.monotoneTesselator.flush t.output
      .ok { t with output := fl.2, spans := t.spans.eraseIdx spanIndex }

/-- Loop of `Tesselator::find_span_and_side` (`path_tesselator.rs:268`);
falling through the whole span list reaches `unreachable!()`. -/
def findSpanAndSideLoop (vid : PathVertexId) :
    ℕ → List Span → Except TessError (ℕ × Side)
  | _, [] => .error .unreachableReached
  | idx, sp :: rest =>
    if sp.left.merge = false ∧ sp.left.lower.id = vid then
      .ok (idx, Side.left)
    else if sp.right.merge = false ∧ sp.right.lower.id = vid then
      .ok (idx, Side.right)
    else findSpanAndSideLoop vid (idx + 1) rest

/-- `Tesselator::find_span_and_side` (`path_tesselator.rs:268`). -/
def Tesselator.findSpanAndSide (t : Tesselator) (vid : PathVertexId) :
    Except TessError (ℕ × Side) :=
  findSpanAndSideLoop vid 0 t.spans

/-- Loop of `Tesselator::find_span_up` (`path_tesselator.rs:338`). -/
def findSpanUpLoop (x y : ℚ) : ℕ → List Span → ℕ × Bool
  | idx, [] => (idx, false)
  | idx, sp :: rest =>
    if sp.left.merge = false ∧
        lineHorizontalIntersection sp.left.upper.position
          sp.left.lower.position y > x then
      (idx, false)
    else if sp.right.merge = false ∧
        lineHorizontalIntersection sp.right.upper.position
          sp.right.lower.position y > x then
      (idx, true)
    else findSpanUpLoop x y (idx + 1) rest

/-- `Tesselator::find_span_up` (`path_tesselator.rs:338`). -/
def Tesselator.findSpanUp (t : Tesselator) (v : Vertex) : ℕ × Bool :=
  findSpanUpLoop v.position.x v.position.y 0 t.spans

/-- `Tesselator::on_left_event` (`path_tesselator.rs:294`). -/
def Tesselator.onLeftEvent (t : Tesselator) (spanIndex : ℕ)
    (current next : Vertex) : Except TessError Tesselator :=
  match t.spans[spanIndex]? with
  | none => .error .indexOutOfBounds
  | some sp =>
    if sp.right.merge then
      match modifySpanP t.spans (spanIndex + 1)
          (fun s => s.setLowerVertex current Side.left) with
      | .error e => .error e
      | .ok spans1 =>
        match Tesselator.endSpan { t with spans := spans1 } spanIndex current with
        | .error e => .error e
        | .ok t1 => t1.insertEdge spanIndex Side.left current next
    else
      t.insertEdge spanIndex Side.left current next

/-- `Tesselator::on_left_event_no_intersection` (`path_tesselator.rs:310`). -/
def Tesselator.onLeftEventNoIntersection (t : Tesselator) (spanIndex : ℕ)
    (current next : Vertex) : Except TessError Tesselator :=
  match t.spans[spanIndex]? with
  | none => .error .indexOutOfBounds
  | some sp =>
    if sp.right.merge then
      match modifySpanP t.spans (spanIndex + 1)
          (fun s => s.setLowerVertex current Side.left) with
      | .error e => .error e
      | .ok spans1 =>
        match Tesselator.endSpan { t with spans := spans1 } spanIndex current with
        | .error e => .error e
        | .ok t1 => t1.insertEdgeNoIntersection spanIndex Side.left current next
    else
      t.insertEdgeNoIntersection spanIndex Side.left current next

/-- `Tesselator::on_right_event` (`path_tesselator.rs:326`). -/
def Tesselator.onRightEvent (t : Tesselator) (spanIndex : ℕ)
    (current next : Vertex) : Except TessError Tesselator :=
  t.insertEdge spanIndex Side.right current next

/-- `Tesselator::on_right_event_no_intersection` (`path_tesselator.rs:332`). -/
def Tesselator.onRightEventNoIntersection (t : Tesselator) (spanIndex : ℕ)
    (current next : Vertex) : Except TessError Tesselator :=
  t.insertEdgeNoIntersection spanIndex Side.right current next

/-- `Tesselator::on_regular_event` (`path_tesselator.rs:284`). -/
def Tesselator.onRegularEvent (t : Tesselator) (current next : Vertex) :
    Except TessError Tesselator :=
  match t.findSpanAndSide current.id with
  | .error e => .error e
  | .ok (spanIndex, side) =>
    match side with
    | .left => t.onLeftEvent spanIndex current next
    | .right => t.onRightEvent spanIndex current next

/-- `Tesselator::on_end_event` (`path_tesselator.rs:449`): ends the span, and
first also the neighbouring span when its right edge is parked in merge. -/
def Tesselator.onEndEvent (t : Tesselator) (vertex : Vertex) (spanIndex : ℕ) :
    Except TessError Tesselator :=
  match t.spans[spanIndex]? with
  | none => .error .indexOutOfBounds
  | some sp =>
    if sp.right.merge then
      match t.endSpan spanIndex vertex with
      | .error e => .error e
      | .ok t1 => t1.endSpan spanIndex vertex
    else
      t.endSpan spanIndex vertex

/-- The merge-cascading first step of `Tesselator::on_merge_event`
(`path_tesselator.rs:467-473`): when the span's right edge is parked in
merge, reconnect the span two to the right and close the span in between. -/
def Tesselator.onMergeEventStep (t : Tesselator) (sp : Span) (spanIndex : ℕ)
    (vertex : Vertex) : Except TessError Tesselator :=
  if sp.right.merge then
    match modifySpanP t.spans (spanIndex + 2)
        (fun s => s.setLowerVertex vertex Side.left) with
    | .error e => .error e
    | .ok spans1 =>
      Tesselator.endSpan { t with spans := spans1 } (spanIndex + 1) vertex
  else .ok t

/-- `Tesselator::on_merge_event` (`path_tesselator.rs:463`), including its
`assert!` and `debug_assert!`. -/
def Tesselator.onMergeEvent (t : Tesselator) (vertex : Vertex)
    (spanIndex : ℕ) : Except TessError Tesselator :=
  if spanIndex < t.spans.length - 1 then
    match t.spans[spanIndex]? with
    | none => .error .indexOutOfBounds
    | some sp =>
      match t.onMergeEventStep sp spanIndex vertex with
      | .error e => .error e
      | .ok t1 =>
        match t1.spans[spanIndex + 1]? with
        | none => .error .indexOutOfBounds
        | some spn =>
          if spn.left.lower.id = vertex.id then
            match modifySpan t1.spans spanIndex
                (fun s => s.mergeVertex vertex Side.right) with
            | .error e => .error e
            | .ok spans2 =>
              match modifySpan spans2 (spanIndex + 1)
                  (fun s => s.mergeVertex vertex Side.left) with
              | .error e => .error e
              | .ok spans3 => .ok { t1 with spans := spans3 }
          else .error .assertionFailure
  else .error .assertionFailure

/-- `Tesselator::on_down_event` (`path_tesselator.rs:437`). -/
def Tesselator.onDownEvent (t : Tesselator) (vertex : Vertex) :
    Except TessError Tesselator :=
  match t.findSpanAndSide vertex.id with
  | .error e => .error e
  | .ok (spanIndex, side) =>
    if spanIndex < t.spans.length then
      if side.isLeft then t.onEndEvent vertex spanIndex
      else t.onMergeEvent vertex spanIndex
    else .error .assertionFailure

/-- `Tesselator::on_split_event` (`path_tesselator.rs:403`).  In the
merge-reconnection branch the source computes `span_index - 1` on a `usize`;
the underflow at `span_index == 0` (a debug-build panic) is an error. -/
def Tesselator.onSplitEvent (t : Tesselator) (event : Event) (spanIndex : ℕ)
    (l r : SpanEdge) : Except TessError Tesselator :=
  match t.spans[spanIndex]? with
  | none => .error .indexOutOfBounds
  | some sp =>
    if sp.left.merge then
      if spanIndex = 0 then .error .assertionFailure
      else
        match modifySpan t.spans (spanIndex - 1)
            (fun s => s.vertex event.current l.lower Side.right) with
        | .error e => .error e
        | .ok spans1 =>
          match modifySpan spans1 spanIndex
              (fun s => s.vertex event.current r.lower Side.left) with
          | .error e => .error e
          | .ok spans2 => .ok { t with spans := spans2 }
    else
      let ll := sp.left
      let r2 : SpanEdge := ⟨ll.upper, event.current, false⟩
      let t1 := { t with spans := t.spans.insertIdx spanIndex (Span.begin ll r2) }
      match t1.insertEdge spanIndex Side.right event.current l.lower with
      | .error e => .error e
      | .ok t2 => t2.insertEdge (spanIndex + 1) Side.left event.current r.lower

/-- `Tesselator::on_up_event` (`path_tesselator.rs:368`): build the two
candidate edges, swap them when the directed angle between the neighbours is
below `π`, then split or start. -/
def Tesselator.onUpEvent (t : Tesselator) (event : Event) :
    Except TessError Tesselator :=
  let fs := t.findSpanUp event.current
  let l0 : SpanEdge := ⟨event.current, event.previous, false⟩
  let r0 : SpanEdge := ⟨event.current, event.next, false⟩
  let swapLR := dirAngleLtPi
    (event.previous.position - event.current.position)
    (event.next.position - event.current.position)
  let l := if swapLR then r0 else l0
  let r := if swapLR then l0 else r0
  if fs.2 then
    t.onSplitEvent event fs.1 l r
  else
    let nonExistantIndex := t.spans.length
    let t1 := t.checkIntersections nonExistantIndex Side.left l.upper l.lower
    let t2 := t1.checkIntersections nonExistantIndex Side.right r.upper r.lower
    .ok { t2 with spans := t2.spans.insertIdx fs.1 (Span.begin l r) }

/-- `Tesselator::on_event` (`path_tesselator.rs:246`). -/
def Tesselator.onEvent (t : Tesselator) (event : Event) :
    Except TessError Tesselator :=
  let belowPrev := isBelow event.current.position event.previous.position
  let belowNext := isBelow event.current.position event.next.position
  if belowPrev && belowNext then
    t.onDownEvent event.current
  else if !belowPrev && !belowNext then
    t.onUpEvent event
  else
    let nextBelowPrev := isBelow event.next.position event.current.position
    t.onRegularEvent event.current
      (if nextBelowPrev then event.next else event.previous)

/-- Loop of `Tesselator::on_intersection_event` (`path_tesselator.rs:572`):
find the span whose right (L/R case) or left (U/D case) lower vertex is the
intersection's `b_down` and reconnect; falling through is `unreachable!()`. -/
def onIntersectionEventLoop (inter : Intersection) :
    Tesselator → ℕ → List Span → Except TessError Tesselator
  | _, _, [] => .error .unreachableReached
  | t, idx, sp :: rest =>
    if sp.right.lower.id = inter.bDown.id then
      match t.onRightEventNoIntersection idx inter.point inter.aDown with
      | .error e => .error e
      | .ok t1 => t1.onLeftEventNoIntersection (idx + 1) inter.point inter.bDown
    else if sp.left.lower.id = inter.bDown.id then
      match t.onEndEvent inter.point idx with
      | .error e => .error e
      | .ok t1 =>
        let l : SpanEdge := ⟨inter.point, inter.aDown, false⟩
        let r : SpanEdge := ⟨inter.point, inter.bDown, false⟩
        .ok { t1 with spans := t1.spans.insertIdx idx (Span.begin l r) }
    else onIntersectionEventLoop inter t (idx + 1) rest

/-- `Tesselator::on_intersection_event` (`path_tesselator.rs:572`). -/
def Tesselator.onIntersectionEvent (t : Tesselator) (inter : Intersection) :
    Except TessError Tesselator :=
  onIntersectionEventLoop inter t 0 t.spans

/-- The intersection-draining `while` loop at the head of
`Tesselator::tesselate` (`path_tesselator.rs:233-240`): while the queue's
head strictly precedes the current event position, remove it and replay it.
`fuel` is the queue length at entry; replaying never enqueues (the
no-intersection handlers are used), so this is exact. -/
def Tesselator.drainIntersections (t : Tesselator) (cur : Vec2) :
    ℕ → Except TessError Tesselator
  | 0 => .ok t
  | fuel + 1 =>
    match t.intersections with
    | [] => .ok t
    | inter :: rest =>
      if isBelow cur inter.point.position then
        match Tesselator.onIntersectionEvent
            { t with intersections := rest, interReplayed := t.interReplayed + 1 } inter with
        | .error e => .error e
        | .ok t1 => t1.drainIntersections cur fuel
      else .ok t

/-- Build the `Event` for one vertex id (`path_tesselator.rs:225-231`). -/
def mkEvent (p : MPath) (e : PathVertexId) : Event :=
  let pn := p.nextId e.vertexId
  let pp := p.prevId e.vertexId
  { current := ⟨p.vertexPos e.vertexId, e⟩,
    previous := ⟨p.vertexPos pp, p.pvid pp⟩,
    next := ⟨p.vertexPos pn, p.pvid pn⟩ }

/-- One iteration of the `tesselate` event loop: drain the preceding queued
intersections, then handle the event. -/
def Tesselator.processEvent (t : Tesselator) (e : PathVertexId) :
    Except TessError Tesselator :=
  let evt := mkEvent t.path e
  match t.drainIntersections evt.current.position t.intersections.length with
  | .error err => .error err
  | .ok t1 => t1.onEvent evt

/-- `Tesselator::tesselate` (`path_tesselator.rs:222`). -/
def Tesselator.tesselate (t : Tesselator) :
    List PathVertexId → Except TessError Tesselator
  | [] => .ok t
  | e :: rest =>
    match t.processEvent e with
    | .error err => .error err
    | .ok t1 => t1.tesselate rest

/-- `Tesselator::new` (`path_tesselator.rs:194`). -/
def Tesselator.new (path : MPath) (output : VOutput) : Tesselator :=
  { path := path, spans := [], intersections := [],
    nextNewVertex := ⟨path.numVertices, path.numSubPaths⟩,
    output := output, interReplayed := 0 }

/-- The `test_path` harness (`path_tesselator.rs:908`): fresh buffers, events
from the path, one `tesselate` call. -/
def testPathRun (p : MPath) : Except TessError Tesselator :=
  (Tesselator.new p ⟨[], []⟩).tesselate (setPath p)

/-- `tesselate_path_fill` (`path_tesselator.rs:783`): push every path vertex
to the output, tessellate, and return `Ok(())` unconditionally — the declared
result type `Result<(), ()>` has no other inhabitant in the source.  An
`Except.error` models a panic, not a returned error value. -/
def tesselate_path_fill (p : MPath) (output : VOutput) :
    Except TessError (Unit × VOutput) :=
  let out1 := p.subPaths.flatten.foldl VOutput.pushVertex output
  match (Tesselator.new p out1).tesselate (setPath p) with
  | .error e => .error e
  | .ok t => .ok ((), t.output)

theorem chain_append_last {α : Type} {r : α → α → Prop} :
    ∀ (l : List α) (a b : α), List.Chain r a (l ++ [b]) →
      List.Chain r a l ∧ r (l.getLastD a) b := by
  intro l
  induction l with
  | nil =>
    intro a b h
    simp only [List.nil_append, List.chain_cons] at h
    exact ⟨List.Chain.nil, by simpa using h.1⟩
  | cons x xs ih =>
    intro a b h
    rw [List.cons_append, List.chain_cons] at h
    rcases h with ⟨hax, h⟩
    rcases ih x b h with ⟨h1, h2⟩
    refine ⟨List.chain_cons.mpr ⟨hax, h1⟩, ?_⟩
    rw [List.getLastD_cons]
    exact h2

/-- Claim C1 core: a monotone tessellation of `n = vs.length + 2` vertices
whose positions strictly descend in sweep order succeeds and accumulates
exactly `n - 2 = vs.length` triangles. -/
theorem runMonotone_count (p0 : Vec2) (id0 : ℕ)
    (vs : List (Vec2 × ℕ × Side)) (pend : Vec2) (idend : ℕ)
    (hchain : List.Chain (fun a b => isBelow b a = true) p0
      (vs.map (·.1) ++ [pend])) :
    ∃ t', runMonotone p0 id0 vs pend idend = .ok t' ∧
      t'.triangles.length = vs.length := by
  rcases chain_append_last (vs.map (·.1)) p0 pend hchain with ⟨hchain', hlastb⟩
  have hbegin : (MonotoneTesselator.begin p0 id0).stack ≠ [] := by
    simp [MonotoneTesselator.begin]
  have hprev0 : (MonotoneTesselator.begin p0 id0).previous.pos = p0 := rfl
  rcases runMonotoneVertices_spec vs (MonotoneTesselator.begin p0 id0) hbegin
    (by rw [hprev0]; exact hchain') with ⟨t1, hok1, hsum1, hs1, hlast1⟩
  have hbel : isBelow pend t1.previous.pos = true := by
    rw [hlast1, hprev0]
    exact hlastb
  have hside : t1.previous.side.opposite ≠ t1.previous.side := by
    cases t1.previous.side <;> simp [Side.opposite]
  rcases vertex_ok_spec t1 pend idend t1.previous.side.opposite hs1 hbel with
    ⟨t2, hok2, hsum2, _, _, hstk2⟩
  refine ⟨{ t2 with stack := [] }, ?_, ?_⟩
  · unfold runMonotone MonotoneTesselator.end'
    rw [hok1]
    simp only [ebind_ok, hok2, emap_ok]
    rfl
  · have h2 := hstk2 hside
    simp only [MonotoneTesselator.begin, List.length_cons, List.length_nil] at hsum1
    simp
    omega

/-! ### Claim C1: universal sweep behaviour on a simple y-monotone polygon

Supporting lemmas: order facts, output-flush length, identity cases of
`test_intersection`, and evaluation of one event from a single-span state. -/

theorem isBelow_asymm {a b : Vec2} (h : isBelow a b = true) :
    isBelow b a = false := by
  rw [isBelow_iff] at h
  rw [Bool.eq_false_iff]
  intro hcon
  rw [isBelow_iff] at hcon
  rcases h with h | ⟨hy, hx⟩
  · rcases hcon with hc | ⟨hcy, _⟩
    · exact absurd (h.trans hc) (lt_irrefl _)
    · exact absurd hcy (ne_of_lt h)
  · rcases hcon with hc | ⟨_, hcx⟩
    · exact absurd hy (ne_of_lt hc)
    · exact absurd (hx.trans hcx) (lt_irrefl _)

theorem Vec2.eq_of_coords {a b : Vec2} (hx : a.x = b.x) (hy : a.y = b.y) :
    a = b := by
  cases a
  cases b
  simp_all

theorem isBelow_of_eventLe_ne {a b : Vec2} (h : eventLe b a = true)
    (hne : a ≠ b) : isBelow a b = true := by
  rw [eventLe_iff] at h
  rw [isBelow_iff]
  rcases h with h | ⟨hy, hx⟩
  · exact Or.inl h
  · rcases lt_or_eq_of_le hx with hlt | heq
    · exact Or.inr ⟨hy.symm, hlt⟩
    · exact absurd (Vec2.eq_of_coords heq.symm hy.symm) hne

theorem Side.opposite_ne (s : Side) : s.opposite ≠ s := by
  cases s <;> decide

theorem pushIndicesFold_length (l : List (ℕ × ℕ × ℕ)) :
    ∀ o : VOutput,
      (l.foldl (fun acc tri => acc.pushIndices tri.1 tri.2.1 tri.2.2)
        o).indices.length = o.indices.length + l.length := by
  induction l with
  | nil => intro o; simp
  | cons x xs ih =>
    intro o
    simp only [List.foldl_cons]
    rw [ih]
    simp only [VOutput.pushIndices, List.length_append, List.length_cons]
    simp
    omega

theorem flush_indices_length (t : MonotoneTesselator) (o : VOutput) :
    ((t.flush o).2).indices.length = o.indices.length + t.triangles.length :=
  pushIndicesFold_length t.triangles o

theorem testIntersection_seg_none (t : Tesselator) (edge : SpanEdge)
    (up down : Vertex)
    (h : segmentIntersection edge.upper.position edge.lower.position
      up.position down.position = none) :
    t.testIntersection edge up down = t := by
  unfold Tesselator.testIntersection
  split
  · rw [h]
  · rfl

theorem testIntersection_lower_down (t : Tesselator) (edge : SpanEdge)
    (up down : Vertex) (h : edge.lower.id = down.id) :
    t.testIntersection edge up down = t := by
  unfold Tesselator.testIntersection
  rw [if_neg]
  intro hcon
  exact hcon.2.2 h

theorem Span.vertex_eval_left (s : Span) (v nextV : Vertex)
    (mt' : MonotoneTesselator)
    (hm : s.monotoneTesselator.vertex v.position v.id.vertexId Side.left =
      .ok mt') :
    s.vertex v nextV Side.left = .ok ⟨⟨v, nextV, false⟩, s.right, mt'⟩ := by
  unfold Span.vertex Span.setUpperVertex
  rw [hm]
  rfl

theorem Span.vertex_eval_right (s : Span) (v nextV : Vertex)
    (mt' : MonotoneTesselator)
    (hm : s.monotoneTesselator.vertex v.position v.id.vertexId Side.right =
      .ok mt') :
    s.vertex v nextV Side.right = .ok ⟨s.left, ⟨v, nextV, false⟩, mt'⟩ := by
  unfold Span.vertex Span.setUpperVertex
  rw [hm]
  rfl

theorem MonotoneTesselator.end'_eval (t : MonotoneTesselator) (pos : Vec2)
    (id : ℕ) (t2 : MonotoneTesselator)
    (h : t.vertex pos id t.previous.side.opposite = .ok t2) :
    t.end' pos id = .ok { t2 with stack := [] } := by
  unfold MonotoneTesselator.end'
  dsimp only
  rw [h]
  rfl

theorem onEvent_regular_next (t : Tesselator) (evt : Event)
    (h1 : isBelow evt.current.position evt.previous.position = true)
    (h2 : isBelow evt.current.position evt.next.position = false)
    (h3 : isBelow evt.next.position evt.current.position = true) :
    t.onEvent evt = t.onRegularEvent evt.current evt.next := by
  unfold Tesselator.onEvent
  dsimp only
  rw [h1, h2, h3]
  rfl

theorem onEvent_regular_prev (t : Tesselator) (evt : Event)
    (h1 : isBelow evt.current.position evt.previous.position = false)
    (h2 : isBelow evt.current.position evt.next.position = true)
    (h3 : isBelow evt.next.position evt.current.position = false) :
    t.onEvent evt = t.onRegularEvent evt.current evt.previous := by
  unfold Tesselator.onEvent
  dsimp only
  rw [h1, h2, h3]
  rfl

theorem onEvent_down_eval (t : Tesselator) (evt : Event)
    (h1 : isBelow evt.current.position evt.previous.position = true)
    (h2 : isBelow evt.current.position evt.next.position = true) :
    t.onEvent evt = t.onDownEvent evt.current := by
  unfold Tesselator.onEvent
  dsimp only
  rw [h1, h2]
  rfl

theorem onEvent_up_eval (t : Tesselator) (evt : Event)
    (h1 : isBelow evt.current.position evt.previous.position = false)
    (h2 : isBelow evt.current.position evt.next.position = false) :
    t.onEvent evt = t.onUpEvent evt := by
  unfold Tesselator.onEvent
  dsimp only
  rw [h1, h2]
  rfl

theorem processEvent_no_inter (t : Tesselator) (e : PathVertexId)
    (h : t.intersections = []) :
    t.processEvent e = t.onEvent (mkEvent t.path e) := by
  unfold Tesselator.processEvent
  dsimp only
  rw [h]
  rfl

theorem tesselate_cons_ok {t t1 : Tesselator} {e : PathVertexId}
    {rest : List PathVertexId} (h : t.processEvent e = .ok t1) :
    t.tesselate (e :: rest) = t1.tesselate rest := by
  rw [Tesselator.tesselate, h]


theorem findSpanAndSide_single_left (P : MPath) (sp : Span)
    (inter : List Intersection) (nv : PathVertexId) (out : VOutput) (ir : ℕ)
    (vid : PathVertexId)
    (hLm : sp.left.merge = false) (hLlow : sp.left.lower.id = vid) :
    Tesselator.findSpanAndSide ⟨P, [sp], inter, nv, out, ir⟩ vid =
      .ok (0, Side.left) := by
  unfold Tesselator.findSpanAndSide
  rw [findSpanAndSideLoop]
  rw [if_pos ⟨hLm, hLlow⟩]

theorem findSpanAndSide_single_right (P : MPath) (sp : Span)
    (inter : List Intersection) (nv : PathVertexId) (out : VOutput) (ir : ℕ)
    (vid : PathVertexId)
    (hLne : sp.left.lower.id ≠ vid)
    (hRm : sp.right.merge = false) (hRlow : sp.right.lower.id = vid) :
    Tesselator.findSpanAndSide ⟨P, [sp], inter, nv, out, ir⟩ vid =
      .ok (0, Side.right) := by
  unfold Tesselator.findSpanAndSide
  rw [findSpanAndSideLoop]
  rw [if_neg (fun hc => hLne hc.2), if_pos ⟨hRm, hRlow⟩]

theorem checkIntersections_single_left (P : MPath) (sp : Span)
    (inter : List Intersection) (nv : PathVertexId) (out : VOutput) (ir : ℕ)
    (current next : Vertex)
    (hT : Tesselator.testIntersection ⟨P, [sp], inter, nv, out, ir⟩ sp.right
      current next = ⟨P, [sp], inter, nv, out, ir⟩) :
    Tesselator.checkIntersections ⟨P, [sp], inter, nv, out, ir⟩ 0 Side.left
      current next = ⟨P, [sp], inter, nv, out, ir⟩ := by
  unfold Tesselator.checkIntersections
  rw [checkIntersectionsLoop]
  rw [if_neg (show ¬((0:ℕ) ≠ 0 ∨ Side.left = Side.right) by decide)]
  rw [if_pos (show (0:ℕ) ≠ 0 ∨ Side.left = Side.left from Or.inr rfl)]
  rw [hT]
  rfl

theorem checkIntersections_single_right (P : MPath) (sp : Span)
    (inter : List Intersection) (nv : PathVertexId) (out : VOutput) (ir : ℕ)
    (current next : Vertex)
    (hT : Tesselator.testIntersection ⟨P, [sp], inter, nv, out, ir⟩ sp.left
      current next = ⟨P, [sp], inter, nv, out, ir⟩) :
    Tesselator.checkIntersections ⟨P, [sp], inter, nv, out, ir⟩ 0 Side.right
      current next = ⟨P, [sp], inter, nv, out, ir⟩ := by
  unfold Tesselator.checkIntersections
  rw [checkIntersectionsLoop]
  rw [if_pos (show (0:ℕ) ≠ 0 ∨ Side.right = Side.right from Or.inr rfl)]
  rw [hT]
  rw [if_neg (show ¬((0:ℕ) ≠ 0 ∨ Side.right = Side.left) by decide)]
  rfl

theorem onRegularEvent_single_left (P : MPath) (sp : Span)
    (inter : List Intersection) (nv : PathVertexId) (out : VOutput) (ir : ℕ)
    (current next : Vertex) (sp' : Span)
    (hLm : sp.left.merge = false) (hRm : sp.right.merge = false)
    (hLlow : sp.left.lower.id = current.id)
    (hT : Tesselator.testIntersection ⟨P, [sp], inter, nv, out, ir⟩ sp.right
      current next = ⟨P, [sp], inter, nv, out, ir⟩)
    (hmv : sp.vertex current next Side.left = .ok sp') :
    Tesselator.onRegularEvent ⟨P, [sp], inter, nv, out, ir⟩ current next =
      .ok ⟨P, [sp'], inter, nv, out, ir⟩ := by
  unfold Tesselator.onRegularEvent
  rw [findSpanAndSide_single_left P sp inter nv out ir current.id hLm hLlow]
  show Tesselator.onLeftEvent _ 0 current next = _
  unfold Tesselator.onLeftEvent
  simp only [List.getElem?_cons_zero]
  rw [if_neg (by simp [hRm])]
  unfold Tesselator.insertEdge
  rw [checkIntersections_single_left P sp inter nv out ir current next hT]
  unfold modifySpan
  simp only [List.getElem?_cons_zero]
  rw [hmv]
  rfl

theorem onRegularEvent_single_right (P : MPath) (sp : Span)
    (inter : List Intersection) (nv : PathVertexId) (out : VOutput) (ir : ℕ)
    (current next : Vertex) (sp' : Span)
    (hLm : sp.left.merge = false) (hRm : sp.right.merge = false)
    (hLne : sp.left.lower.id ≠ current.id)
    (hRlow : sp.right.lower.id = current.id)
    (hT : Tesselator.testIntersection ⟨P, [sp], inter, nv, out, ir⟩ sp.left
      current next = ⟨P, [sp], inter, nv, out, ir⟩)
    (hmv : sp.vertex current next Side.right = .ok sp') :
    Tesselator.onRegularEvent ⟨P, [sp], inter, nv, out, ir⟩ current next =
      .ok ⟨P, [sp'], inter, nv, out, ir⟩ := by
  unfold Tesselator.onRegularEvent
  rw [findSpanAndSide_single_right P sp inter nv out ir current.id hLne hRm
    hRlow]
  show Tesselator.onRightEvent _ 0 current next = _
  unfold Tesselator.onRightEvent
  unfold Tesselator.insertEdge
  rw [checkIntersections_single_right P sp inter nv out ir current next hT]
  unfold modifySpan
  simp only [List.getElem?_cons_zero]
  rw [hmv]
  rfl

theorem onDownEvent_single_end (P : MPath) (sp : Span)
    (inter : List Intersection) (nv : PathVertexId) (out : VOutput) (ir : ℕ)
    (current : Vertex) (mt' : MonotoneTesselator)
    (hLm : sp.left.merge = false) (hRm : sp.right.merge = false)
    (hLlow : sp.left.lower.id = current.id)
    (hend : sp.monotoneTesselator.end' current.position current.id.vertexId =
      .ok mt') :
    Tesselator.onDownEvent ⟨P, [sp], inter, nv, out, ir⟩ current =
      .ok ⟨P, [], inter, nv, (mt'.flush out).2, ir⟩ := by
  unfold Tesselator.onDownEvent
  rw [findSpanAndSide_single_left P sp inter nv out ir current.id hLm hLlow]
  show (if (0:ℕ) < [sp].length then _ else _) = _
  rw [if_pos (show (0:ℕ) < [sp].length by simp)]
  rw [if_pos (show Side.left.isLeft = true from rfl)]
  show Tesselator.onEndEvent _ current 0 = _
  unfold Tesselator.onEndEvent
  simp only [List.getElem?_cons_zero]
  rw [if_neg (by simp [hRm])]
  unfold Tesselator.endSpan
  simp only [List.getElem?_cons_zero]
  unfold Span.end'
  rw [hend]
  rfl

theorem onUpEvent_empty_swap (P : MPath)
    (inter : List Intersection) (nv : PathVertexId) (out : VOutput) (ir : ℕ)
    (evt : Event)
    (hsw : dirAngleLtPi (evt.previous.position - evt.current.position)
      (evt.next.position - evt.current.position) = true) :
    Tesselator.onUpEvent ⟨P, [], inter, nv, out, ir⟩ evt =
      .ok ⟨P, [Span.begin ⟨evt.current, evt.next, false⟩
        ⟨evt.current, evt.previous, false⟩], inter, nv, out, ir⟩ := by
  unfold Tesselator.onUpEvent
  dsimp only
  rw [hsw]
  rfl

theorem onUpEvent_empty_noswap (P : MPath)
    (inter : List Intersection) (nv : PathVertexId) (out : VOutput) (ir : ℕ)
    (evt : Event)
    (hsw : dirAngleLtPi (evt.previous.position - evt.current.position)
      (evt.next.position - evt.current.position) = false) :
    Tesselator.onUpEvent ⟨P, [], inter, nv, out, ir⟩ evt =
      .ok ⟨P, [Span.begin ⟨evt.current, evt.previous, false⟩
        ⟨evt.current, evt.next, false⟩], inter, nv, out, ir⟩ := by
  unfold Tesselator.onUpEvent
  dsimp only
  rw [hsw]
  rfl

/-! ### Cyclic indexing of a one-sub-path closed polygon

`cIdx n t j` walks `j` steps forward (in path order) from vertex `t` of an
`n`-vertex single sub-path; `cVtx` is the corresponding sweep `Vertex`. -/

def cIdx (n t j : ℕ) : ℕ := (t + j) % n

def cPos (ps : List Vec2) (t j : ℕ) : Vec2 := ps.getD (cIdx ps.length t j) ⟨0, 0⟩

def cVtx (ps : List Vec2) (t j : ℕ) : Vertex :=
  ⟨cPos ps t j, ⟨cIdx ps.length t j, 0⟩⟩

theorem cIdx_lt (n t j : ℕ) (hn : 0 < n) : cIdx n t j < n :=
  Nat.mod_lt _ hn

theorem cIdx_zero (n t : ℕ) (ht : t < n) : cIdx n t 0 = t :=
  Nat.mod_eq_of_lt ht

theorem cIdx_cycle (n t : ℕ) : cIdx n t n = cIdx n t 0 := by
  unfold cIdx
  rw [Nat.add_mod_right]
  rfl

theorem cIdx_inj (n t : ℕ) {j1 j2 : ℕ} (h1 : j1 < n) (h2 : j2 < n)
    (h : cIdx n t j1 = cIdx n t j2) : j1 = j2 := by
  unfold cIdx at h
  have hmod : j1 % n = j2 % n :=
    Nat.ModEq.add_left_cancel (Nat.ModEq.refl t) h
  rw [Nat.mod_eq_of_lt h1, Nat.mod_eq_of_lt h2] at hmod
  exact hmod

theorem cIdx_succ (n t j : ℕ) : (cIdx n t j + 1) % n = cIdx n t (j + 1) := by
  unfold cIdx
  rw [Nat.mod_add_mod, Nat.add_assoc]

theorem cIdx_pred (n t j : ℕ) (hn : 0 < n) (hj : 1 ≤ j) :
    (cIdx n t j + n - 1) % n = cIdx n t (j - 1) := by
  unfold cIdx
  have h1 : (t + j) % n + n - 1 = (t + j) % n + (n - 1) := by omega
  rw [h1, Nat.mod_add_mod]
  have h2 : t + j + (n - 1) = t + (j - 1) + n := by omega
  rw [h2, Nat.add_mod_right]

theorem locatePath_one (ps : List Vec2) (i : ℕ) (h : i < ps.length) :
    locatePath [ps] i 0 0 = (0, 0, i, ps) := by
  rw [locatePath]
  rw [if_pos h]

theorem pathIdOf_one (ps : List Vec2) (i : ℕ) (h : i < ps.length) :
    (MPath.mk [ps]).pathIdOf i = 0 := by
  unfold MPath.pathIdOf
  rw [locatePath_one ps i h]

theorem pvid_one (ps : List Vec2) (i : ℕ) (h : i < ps.length) :
    (MPath.mk [ps]).pvid i = ⟨i, 0⟩ := by
  unfold MPath.pvid
  rw [pathIdOf_one ps i h]

theorem nextId_one (ps : List Vec2) (i : ℕ) (h : i < ps.length) :
    (MPath.mk [ps]).nextId i = (i + 1) % ps.length := by
  unfold MPath.nextId
  rw [locatePath_one ps i h]
  simp

theorem prevId_one (ps : List Vec2) (i : ℕ) (h : i < ps.length) :
    (MPath.mk [ps]).prevId i = (i + ps.length - 1) % ps.length := by
  unfold MPath.prevId
  rw [locatePath_one ps i h]
  simp

theorem vertexPos_one (ps : List Vec2) (i : ℕ) :
    (MPath.mk [ps]).vertexPos i = ps.getD i ⟨0, 0⟩ := by
  unfold MPath.vertexPos
  simp

theorem numVertices_one (ps : List Vec2) :
    (MPath.mk [ps]).numVertices = ps.length := by
  simp [MPath.numVertices]

theorem mkEvent_one (ps : List Vec2) (t j : ℕ) (hn : 0 < ps.length)
    (hj : 1 ≤ j) :
    mkEvent ⟨[ps]⟩ ⟨cIdx ps.length t j, 0⟩ =
      ⟨cVtx ps t j, cVtx ps t (j + 1), cVtx ps t (j - 1)⟩ := by
  unfold mkEvent
  dsimp only
  have hlt : cIdx ps.length t j < ps.length := cIdx_lt _ _ _ hn
  rw [nextId_one ps _ hlt, prevId_one ps _ hlt]
  rw [cIdx_succ, cIdx_pred ps.length t j hn hj]
  rw [vertexPos_one, vertexPos_one, vertexPos_one]
  rw [pvid_one ps _ (cIdx_lt _ _ _ hn), pvid_one ps _ (cIdx_lt _ _ _ hn)]
  rfl

theorem mkEvent_one_zero (ps : List Vec2) (t : ℕ) (hn : 0 < ps.length) :
    mkEvent ⟨[ps]⟩ ⟨cIdx ps.length t 0, 0⟩ =
      ⟨cVtx ps t 0, cVtx ps t 1, cVtx ps t (ps.length - 1)⟩ := by
  unfold mkEvent
  dsimp only
  have hlt : cIdx ps.length t 0 < ps.length := cIdx_lt _ _ _ hn
  rw [nextId_one ps _ hlt, prevId_one ps _ hlt]
  rw [cIdx_succ]
  have h1 : cIdx ps.length t 0 + ps.length - 1 =
      cIdx ps.length t 0 + (ps.length - 1) := by omega
  rw [h1]
  unfold cIdx
  rw [Nat.mod_add_mod]
  have h2 : t + 0 + (ps.length - 1) = t + (ps.length - 1) := by omega
  rw [h2]
  rw [vertexPos_one, vertexPos_one, vertexPos_one]
  rw [pvid_one ps _ (by exact Nat.mod_lt _ hn), pvid_one ps _ (by exact Nat.mod_lt _ hn)]
  rfl

theorem cIdx_mod (n t j : ℕ) : cIdx n t (j % n) = cIdx n t j := by
  unfold cIdx
  conv_lhs => rw [Nat.add_mod]
  conv_rhs => rw [Nat.add_mod]
  rw [Nat.mod_mod_of_dvd j dvd_rfl]

/-! ### The single-span sweep states reached on a y-monotone polygon

With top vertex `t`, the two boundary chains are the path-forward chain
`c 0 = t, c 1, …, c k = b` and the path-backward chain `c n = t, c (n-1), …,
c k = b` (where `c j = cIdx n t j`).  After the start event and some regular
events the sweep line holds exactly one span whose two edges are the current
forward-chain edge `dEdge` (ending at `c d`) and backward-chain edge `uEdge`
(ending at `c r`); `sw` records which of them the start event made the left
edge.  `remIds` lists the ids still to be processed, `c d … c r`. -/

def dEdge (ps : List Vec2) (t d : ℕ) : SpanEdge :=
  ⟨cVtx ps t (d - 1), cVtx ps t d, false⟩

def uEdge (ps : List Vec2) (t r : ℕ) : SpanEdge :=
  ⟨cVtx ps t (r + 1), cVtx ps t r, false⟩

def sweepSpan (sw : Bool) (ps : List Vec2) (t d r : ℕ)
    (mono : MonotoneTesselator) : Span :=
  match sw with
  | true => ⟨dEdge ps t d, uEdge ps t r, mono⟩
  | false => ⟨uEdge ps t r, dEdge ps t d, mono⟩

def sweepState (ps : List Vec2) (t : ℕ) (sw : Bool) (d r : ℕ)
    (mono : MonotoneTesselator) : Tesselator :=
  ⟨⟨[ps]⟩, [sweepSpan sw ps t d r mono], [], ⟨ps.length, 1⟩, ⟨[], []⟩, 0⟩

def remIds (n t d r : ℕ) : List PathVertexId :=
  (List.range' d (r + 1 - d)).map (fun j => ⟨cIdx n t j, 0⟩)

/-- The side of the span on which the forward (downward) chain is inserted. -/
def chainSideD : Bool → Side
  | true => Side.left
  | false => Side.right

/-- The side of the span on which the backward (upward) chain is inserted. -/
def chainSideU : Bool → Side
  | true => Side.right
  | false => Side.left

theorem remIds_cons (n t d r : ℕ) (h : d ≤ r) :
    remIds n t d r = ⟨cIdx n t d, 0⟩ :: remIds n t (d + 1) r := by
  unfold remIds
  rw [show r + 1 - d = (r - d) + 1 from by omega, List.range'_succ]
  rw [show r + 1 - (d + 1) = r - d from by omega]
  rfl

theorem remIds_concat (n t d r : ℕ) (h : d ≤ r) (hr1 : 1 ≤ r) :
    remIds n t d r = remIds n t d (r - 1) ++ [⟨cIdx n t r, 0⟩] := by
  unfold remIds
  rw [show r + 1 - d = (r - d) + 1 from by omega, List.range'_concat]
  rw [List.map_append]
  rw [show r - 1 + 1 - d = r - d from by omega]
  rw [show d + 1 * (r - d) = r from by omega]
  rfl

theorem remIds_nodup (n t d r : ℕ) (hr : r < n) : (remIds n t d r).Nodup := by
  unfold remIds
  apply List.Nodup.map_on
  · intro x hx y hy hxy
    rw [List.mem_range'_1] at hx hy
    exact cIdx_inj n t (by omega) (by omega)
      (congrArg PathVertexId.vertexId hxy)
  · exact List.nodup_range' _ _

theorem remIds_mem (n t d r : ℕ) {e : PathVertexId}
    (he : e ∈ remIds n t d r) :
    ∃ j, d ≤ j ∧ j ≤ r ∧ e = ⟨cIdx n t j, 0⟩ := by
  unfold remIds at he
  rcases List.mem_map.mp he with ⟨j, hj, rfl⟩
  rw [List.mem_range'_1] at hj
  exact ⟨j, hj.1, by omega, rfl⟩

theorem remIds_mem_of (n t d r j : ℕ) (h1 : d ≤ j) (h2 : j ≤ r) :
    (⟨cIdx n t j, 0⟩ : PathVertexId) ∈ remIds n t d r := by
  unfold remIds
  exact List.mem_map_of_mem _ (List.mem_range'_1.mpr ⟨h1, by omega⟩)

/-- A strictly-above vertex cannot appear in the tail of an event-sorted
list headed by `v`. -/
theorem sorted_head_exclusion (P : MPath) (v w : PathVertexId)
    (rest : List PathVertexId)
    (hsort : (v :: rest).Pairwise (fun a b => eventIdLe P a b = true))
    (hmem : w ∈ v :: rest) (hne : w ≠ v)
    (hbel : isBelow (P.vertexPos v.vertexId) (P.vertexPos w.vertexId) = true) :
    False := by
  rcases List.mem_cons.mp hmem with h | h
  · exact hne h
  · have hle := (List.pairwise_cons.mp hsort).1 w h
    unfold eventIdLe at hle
    rw [not_isBelow_of_eventLe hle] at hbel
    exact Bool.noConfusion hbel

theorem sweepStep_D (ps : List Vec2) (t d r : ℕ) (sw : Bool)
    (mono mono' : MonotoneTesselator)
    (hn0 : 0 < ps.length) (hd1 : 1 ≤ d) (hdr : d < r)
    (hrn : r ≤ ps.length - 1)
    (hb1 : isBelow (cPos ps t d) (cPos ps t (d - 1)) = true)
    (hb2 : isBelow (cPos ps t d) (cPos ps t (d + 1)) = false)
    (hb3 : isBelow (cPos ps t (d + 1)) (cPos ps t d) = true)
    (hT : Tesselator.testIntersection (sweepState ps t sw d r mono)
      (uEdge ps t r) (cVtx ps t d) (cVtx ps t (d + 1)) =
      sweepState ps t sw d r mono)
    (hok : mono.vertex (cPos ps t d) (cIdx ps.length t d) (chainSideD sw) =
      .ok mono') :
    Tesselator.processEvent (sweepState ps t sw d r mono)
      ⟨cIdx ps.length t d, 0⟩ =
      .ok (sweepState ps t sw (d + 1) r mono') := by
  rw [processEvent_no_inter _ _ rfl]
  rw [show (sweepState ps t sw d r mono).path = ⟨[ps]⟩ from rfl]
  rw [mkEvent_one ps t d hn0 hd1]
  rw [onEvent_regular_next (sweepState ps t sw d r mono)
    ⟨cVtx ps t d, cVtx ps t (d + 1), cVtx ps t (d - 1)⟩ hb1 hb2 hb3]
  have hne : (⟨cIdx ps.length t r, 0⟩ : PathVertexId) ≠
      ⟨cIdx ps.length t d, 0⟩ := by
    intro hc
    have h2 := cIdx_inj ps.length t (by omega) (by omega)
      (congrArg PathVertexId.vertexId hc)
    omega
  cases sw with
  | true =>
    exact onRegularEvent_single_left ⟨[ps]⟩ (sweepSpan true ps t d r mono) []
      ⟨ps.length, 1⟩ ⟨[], []⟩ 0 (cVtx ps t d) (cVtx ps t (d + 1))
      ⟨⟨cVtx ps t d, cVtx ps t (d + 1), false⟩, uEdge ps t r, mono'⟩
      rfl rfl rfl hT (Span.vertex_eval_left _ _ _ _ hok)
  | false =>
    exact onRegularEvent_single_right ⟨[ps]⟩ (sweepSpan false ps t d r mono) []
      ⟨ps.length, 1⟩ ⟨[], []⟩ 0 (cVtx ps t d) (cVtx ps t (d + 1))
      ⟨uEdge ps t r, ⟨cVtx ps t d, cVtx ps t (d + 1), false⟩, mono'⟩
      rfl rfl hne rfl hT (Span.vertex_eval_right _ _ _ _ hok)

theorem sweepStep_U (ps : List Vec2) (t d r : ℕ) (sw : Bool)
    (mono mono' : MonotoneTesselator)
    (hn0 : 0 < ps.length) (hd1 : 1 ≤ d) (hdr : d < r)
    (hrn : r ≤ ps.length - 1)
    (hb1 : isBelow (cPos ps t r) (cPos ps t (r - 1)) = false)
    (hb2 : isBelow (cPos ps t r) (cPos ps t (r + 1)) = true)
    (hb3 : isBelow (cPos ps t (r + 1)) (cPos ps t r) = false)
    (hT : Tesselator.testIntersection (sweepState ps t sw d r mono)
      (dEdge ps t d) (cVtx ps t r) (cVtx ps t (r - 1)) =
      sweepState ps t sw d r mono)
    (hok : mono.vertex (cPos ps t r) (cIdx ps.length t r) (chainSideU sw) =
      .ok mono') :
    Tesselator.processEvent (sweepState ps t sw d r mono)
      ⟨cIdx ps.length t r, 0⟩ =
      .ok (sweepState ps t sw d (r - 1) mono') := by
  rw [processEvent_no_inter _ _ rfl]
  rw [show (sweepState ps t sw d r mono).path = ⟨[ps]⟩ from rfl]
  rw [mkEvent_one ps t r hn0 (by omega)]
  rw [onEvent_regular_prev (sweepState ps t sw d r mono)
    ⟨cVtx ps t r, cVtx ps t (r + 1), cVtx ps t (r - 1)⟩ hb1 hb2 hb3]
  have hne : (⟨cIdx ps.length t d, 0⟩ : PathVertexId) ≠
      ⟨cIdx ps.length t r, 0⟩ := by
    intro hc
    have h2 := cIdx_inj ps.length t (by omega) (by omega)
      (congrArg PathVertexId.vertexId hc)
    omega
  have hE : (⟨cVtx ps t r, cVtx ps t (r - 1), false⟩ : SpanEdge) =
      uEdge ps t (r - 1) := by
    unfold uEdge
    rw [show r - 1 + 1 = r from by omega]
  cases sw with
  | true =>
    have hmv := Span.vertex_eval_right (sweepSpan true ps t d r mono)
      (cVtx ps t r) (cVtx ps t (r - 1)) mono' hok
    rw [hE] at hmv
    exact onRegularEvent_single_right ⟨[ps]⟩ (sweepSpan true ps t d r mono) []
      ⟨ps.length, 1⟩ ⟨[], []⟩ 0 (cVtx ps t r) (cVtx ps t (r - 1))
      ⟨dEdge ps t d, uEdge ps t (r - 1), mono'⟩
      rfl rfl hne rfl hT hmv
  | false =>
    have hmv := Span.vertex_eval_left (sweepSpan false ps t d r mono)
      (cVtx ps t r) (cVtx ps t (r - 1)) mono' hok
    rw [hE] at hmv
    exact onRegularEvent_single_left ⟨[ps]⟩ (sweepSpan false ps t d r mono) []
      ⟨ps.length, 1⟩ ⟨[], []⟩ 0 (cVtx ps t r) (cVtx ps t (r - 1))
      ⟨uEdge ps t (r - 1), dEdge ps t d, mono'⟩
      rfl rfl rfl hT hmv

theorem sweepStep_end (ps : List Vec2) (t k : ℕ) (sw : Bool)
    (mono mono2 : MonotoneTesselator)
    (hn0 : 0 < ps.length) (hk1 : 1 ≤ k)
    (hb1 : isBelow (cPos ps t k) (cPos ps t (k - 1)) = true)
    (hb2 : isBelow (cPos ps t k) (cPos ps t (k + 1)) = true)
    (hok : mono.vertex (cPos ps t k) (cIdx ps.length t k)
      mono.previous.side.opposite = .ok mono2) :
    Tesselator.processEvent (sweepState ps t sw k k mono)
      ⟨cIdx ps.length t k, 0⟩ =
      .ok ⟨⟨[ps]⟩, [], [], ⟨ps.length, 1⟩,
        ((⟨[], mono2.previous, mono2.triangles⟩ :
          MonotoneTesselator).flush ⟨[], []⟩).2, 0⟩ := by
  rw [processEvent_no_inter _ _ rfl]
  rw [show (sweepState ps t sw k k mono).path = ⟨[ps]⟩ from rfl]
  rw [mkEvent_one ps t k hn0 hk1]
  rw [onEvent_down_eval (sweepState ps t sw k k mono)
    ⟨cVtx ps t k, cVtx ps t (k + 1), cVtx ps t (k - 1)⟩ hb1 hb2]
  have hsp : (sweepSpan sw ps t k k mono).monotoneTesselator = mono := by
    cases sw <;> rfl
  refine onDownEvent_single_end ⟨[ps]⟩ (sweepSpan sw ps t k k mono) []
    ⟨ps.length, 1⟩ ⟨[], []⟩ 0 (cVtx ps t k)
    ⟨[], mono2.previous, mono2.triangles⟩ ?_ ?_ ?_ ?_
  · cases sw <;> rfl
  · cases sw <;> rfl
  · cases sw <;> rfl
  · rw [hsp]
    exact MonotoneTesselator.end'_eval mono _ _ mono2 hok

theorem sweepStart (ps : List Vec2) (t : ℕ)
    (hn0 : 0 < ps.length)
    (hb1 : isBelow (cPos ps t 0) (cPos ps t (ps.length - 1)) = false)
    (hb2 : isBelow (cPos ps t 0) (cPos ps t 1) = false) :
    ∃ sw, Tesselator.processEvent (Tesselator.new ⟨[ps]⟩ ⟨[], []⟩)
      ⟨cIdx ps.length t 0, 0⟩ =
      .ok (sweepState ps t sw 1 (ps.length - 1)
        (MonotoneTesselator.begin (cPos ps t 0) (cIdx ps.length t 0))) := by
  have hU : uEdge ps t (ps.length - 1) =
      ⟨cVtx ps t 0, cVtx ps t (ps.length - 1), false⟩ := by
    unfold uEdge
    rw [show ps.length - 1 + 1 = ps.length from by omega]
    rw [show cVtx ps t ps.length = cVtx ps t 0 from by
      unfold cVtx cPos; rw [cIdx_cycle]]
  by_cases hsw : dirAngleLtPi (cPos ps t (ps.length - 1) - cPos ps t 0)
      (cPos ps t 1 - cPos ps t 0) = true
  · refine ⟨true, ?_⟩
    rw [processEvent_no_inter _ _ rfl]
    rw [show Tesselator.new ⟨[ps]⟩ ⟨[], []⟩ =
      (⟨⟨[ps]⟩, [], [], ⟨ps.length, 1⟩, ⟨[], []⟩, 0⟩ : Tesselator) from rfl]
    rw [show (⟨⟨[ps]⟩, [], [], ⟨ps.length, 1⟩, ⟨[], []⟩, 0⟩ :
      Tesselator).path = ⟨[ps]⟩ from rfl]
    rw [mkEvent_one_zero ps t hn0]
    rw [onEvent_up_eval (⟨⟨[ps]⟩, [], [], ⟨ps.length, 1⟩, ⟨[], []⟩, 0⟩ :
      Tesselator)
      ⟨cVtx ps t 0, cVtx ps t 1, cVtx ps t (ps.length - 1)⟩ hb1 hb2]
    rw [onUpEvent_empty_swap ⟨[ps]⟩ [] ⟨ps.length, 1⟩ ⟨[], []⟩ 0
      ⟨cVtx ps t 0, cVtx ps t 1, cVtx ps t (ps.length - 1)⟩ hsw]
    rw [show sweepState ps t true 1 (ps.length - 1)
        (MonotoneTesselator.begin (cPos ps t 0) (cIdx ps.length t 0)) =
      (⟨⟨[ps]⟩, [⟨dEdge ps t 1, uEdge ps t (ps.length - 1),
        MonotoneTesselator.begin (cPos ps t 0) (cIdx ps.length t 0)⟩], [],
        ⟨ps.length, 1⟩, ⟨[], []⟩, 0⟩ : Tesselator) from rfl]
    rw [hU]
    rfl
  · refine ⟨false, ?_⟩
    rw [processEvent_no_inter _ _ rfl]
    rw [show Tesselator.new ⟨[ps]⟩ ⟨[], []⟩ =
      (⟨⟨[ps]⟩, [], [], ⟨ps.length, 1⟩, ⟨[], []⟩, 0⟩ : Tesselator) from rfl]
    rw [show (⟨⟨[ps]⟩, [], [], ⟨ps.length, 1⟩, ⟨[], []⟩, 0⟩ :
      Tesselator).path = ⟨[ps]⟩ from rfl]
    rw [mkEvent_one_zero ps t hn0]
    rw [onEvent_up_eval (⟨⟨[ps]⟩, [], [], ⟨ps.length, 1⟩, ⟨[], []⟩, 0⟩ :
      Tesselator)
      ⟨cVtx ps t 0, cVtx ps t 1, cVtx ps t (ps.length - 1)⟩ hb1 hb2]
    rw [onUpEvent_empty_noswap ⟨[ps]⟩ [] ⟨ps.length, 1⟩ ⟨[], []⟩ 0
      ⟨cVtx ps t 0, cVtx ps t 1, cVtx ps t (ps.length - 1)⟩
      (Bool.eq_false_iff.mpr hsw)]
    rw [show sweepState ps t false 1 (ps.length - 1)
        (MonotoneTesselator.begin (cPos ps t 0) (cIdx ps.length t 0)) =
      (⟨⟨[ps]⟩, [⟨uEdge ps t (ps.length - 1), dEdge ps t 1,
        MonotoneTesselator.begin (cPos ps t 0) (cIdx ps.length t 0)⟩], [],
        ⟨ps.length, 1⟩, ⟨[], []⟩, 0⟩ : Tesselator) from rfl]
    rw [hU]
    rfl

/-- The sweep loop on a y-monotone polygon: from any reachable single-span
state, processing the remaining (sorted) events succeeds and ends with
exactly `n - 2` triangles in the output. -/
theorem sweepLoop_spec (ps : List Vec2) (t k : ℕ)
    (ht : t < ps.length) (hk0 : 0 < k) (hkn : k < ps.length)
    (hdown : ∀ j, j < k → isBelow (cPos ps t (j + 1)) (cPos ps t j) = true)
    (hup : ∀ j, k ≤ j → j < ps.length →
      isBelow (cPos ps t j) (cPos ps t (j + 1)) = true)
    (hdist : ∀ i j, i < ps.length → j < ps.length → i ≠ j →
      ps.getD i ⟨0, 0⟩ ≠ ps.getD j ⟨0, 0⟩)
    (hnc : ∀ i j, i < ps.length → j < ps.length → i ≠ j →
      ∀ a b c d : Vec2,
      (a = ps.getD i ⟨0, 0⟩ ∧ b = ps.getD ((i + 1) % ps.length) ⟨0, 0⟩ ∨
       b = ps.getD i ⟨0, 0⟩ ∧ a = ps.getD ((i + 1) % ps.length) ⟨0, 0⟩) →
      (c = ps.getD j ⟨0, 0⟩ ∧ d = ps.getD ((j + 1) % ps.length) ⟨0, 0⟩ ∨
       d = ps.getD j ⟨0, 0⟩ ∧ c = ps.getD ((j + 1) % ps.length) ⟨0, 0⟩) →
      segmentIntersection a b c d = none) :
    ∀ (rem : List PathVertexId) (d r : ℕ) (sw : Bool)
      (mono : MonotoneTesselator),
      1 ≤ d → d ≤ k → k ≤ r → r ≤ ps.length - 1 →
      rem.Perm (remIds ps.length t d r) →
      rem.Pairwise (fun a b => eventIdLe ⟨[ps]⟩ a b = true) →
      mono.stack ≠ [] →
      mono.stack.length + mono.triangles.length + r + 1 = d + ps.length →
      (∀ w ∈ rem, isBelow (ps.getD w.vertexId ⟨0, 0⟩) mono.previous.pos =
        true) →
      ∃ tf, Tesselator.tesselate (sweepState ps t sw d r mono) rem = .ok tf ∧
        tf.output.indices.length = ps.length - 2 := by
  intro rem
  induction rem with
  | nil =>
    intro d r sw mono hd1 hdk hkr hrn hperm _ _ _ _
    exact absurd (hperm.symm.subset
      (remIds_mem_of ps.length t d r d le_rfl (le_trans hdk hkr)))
      (List.not_mem_nil _)
  | cons v rest ih =>
    intro d r sw mono hd1 hdk hkr hrn hperm hsort hms hmc hbelow
    have hn0 : 0 < ps.length := by omega
    have hvmem : v ∈ remIds ps.length t d r :=
      hperm.subset (List.mem_cons_self v rest)
    obtain ⟨j, hdj, hjr, hveq⟩ := remIds_mem _ _ _ _ hvmem
    have hnd : (v :: rest).Nodup :=
      (hperm.nodup_iff).mpr (remIds_nodup ps.length t d r (by omega))
    have hnint1 : ¬ (d < j ∧ j ≤ k) := by
      rintro ⟨hgt, hlek⟩
      refine sorted_head_exclusion ⟨[ps]⟩ v ⟨cIdx ps.length t (j - 1), 0⟩
        rest hsort ?_ ?_ ?_
      · exact (hperm.mem_iff).mpr
          (remIds_mem_of ps.length t d r (j - 1) (by omega) (by omega))
      · rw [hveq]
        intro hc
        have h2 := cIdx_inj ps.length t (by omega) (by omega)
          (congrArg PathVertexId.vertexId hc)
        omega
      · rw [hveq]
        rw [vertexPos_one, vertexPos_one]
        have hstep := hdown (j - 1) (by omega)
        rw [show j - 1 + 1 = j from by omega] at hstep
        exact hstep
    have hnint2 : ¬ (k ≤ j ∧ j < r) := by
      rintro ⟨hgek, hltr⟩
      refine sorted_head_exclusion ⟨[ps]⟩ v ⟨cIdx ps.length t (j + 1), 0⟩
        rest hsort ?_ ?_ ?_
      · exact (hperm.mem_iff).mpr
          (remIds_mem_of ps.length t d r (j + 1) (by omega) (by omega))
      · rw [hveq]
        intro hc
        have h2 := cIdx_inj ps.length t (by omega) (by omega)
          (congrArg PathVertexId.vertexId hc)
        omega
      · rw [hveq]
        rw [vertexPos_one, vertexPos_one]
        exact hup j hgek (by omega)
    have hcase : (j = d ∧ d < k) ∨ (j = r ∧ k < r) ∨
        (j = k ∧ d = k ∧ r = k) := by omega
    rcases hcase with ⟨hjd, hdlt⟩ | ⟨hjr2, hklt⟩ | ⟨hjk, hdk2, hrk⟩
    · -- the head event continues the forward (downward) chain
      have hveq2 : v = ⟨cIdx ps.length t d, 0⟩ := by rw [hveq, hjd]
      have hb1 : isBelow (cPos ps t d) (cPos ps t (d - 1)) = true := by
        have hstep := hdown (d - 1) (by omega)
        rw [show d - 1 + 1 = d from by omega] at hstep
        exact hstep
      have hb3 : isBelow (cPos ps t (d + 1)) (cPos ps t d) = true :=
        hdown d hdlt
      have hb2 : isBelow (cPos ps t d) (cPos ps t (d + 1)) = false :=
        isBelow_asymm hb3
      have hbelv : isBelow (cPos ps t d) mono.previous.pos = true := by
        have hv := hbelow v (List.mem_cons_self v rest)
        rw [hveq2] at hv
        exact hv
      obtain ⟨mono', hok, hsum, hms', hprev', -⟩ :=
        vertex_ok_spec mono (cPos ps t d) (cIdx ps.length t d)
          (chainSideD sw) hms hbelv
      have hT : Tesselator.testIntersection (sweepState ps t sw d r mono)
          (uEdge ps t r) (cVtx ps t d) (cVtx ps t (d + 1)) =
          sweepState ps t sw d r mono := by
        by_cases hcl : r = d + 1
        · apply testIntersection_lower_down
          show (⟨cIdx ps.length t r, 0⟩ : PathVertexId) =
            ⟨cIdx ps.length t (d + 1), 0⟩
          rw [hcl]
        · apply testIntersection_seg_none
          show segmentIntersection (cPos ps t (r + 1)) (cPos ps t r)
            (cPos ps t d) (cPos ps t (d + 1)) = none
          apply hnc (cIdx ps.length t r) (cIdx ps.length t d)
            (cIdx_lt _ _ _ hn0) (cIdx_lt _ _ _ hn0) ?_ _ _ _ _ ?_ ?_
          · intro hc
            have h2 := cIdx_inj ps.length t (by omega) (by omega) hc
            omega
          · refine Or.inr ⟨rfl, ?_⟩
            rw [cIdx_succ]
            rfl
          · refine Or.inl ⟨rfl, ?_⟩
            rw [cIdx_succ]
            rfl
      rw [hveq2, tesselate_cons_ok (sweepStep_D ps t d r sw mono mono' hn0 hd1
        (by omega) hrn hb1 hb2 hb3 hT hok)]
      refine ih (d + 1) r sw mono' (by omega) (by omega) hkr hrn ?_
        (List.Pairwise.of_cons hsort) hms' (by omega) ?_
      · rw [remIds_cons ps.length t d r (by omega)] at hperm
        rw [hveq2] at hperm
        exact hperm.cons_inv
      · intro w hw
        rw [hprev']
        show isBelow (ps.getD w.vertexId ⟨0, 0⟩) (cPos ps t d) = true
        have hle := (List.pairwise_cons.mp hsort).1 w hw
        rw [hveq2] at hle
        unfold eventIdLe at hle
        rw [vertexPos_one, vertexPos_one] at hle
        apply isBelow_of_eventLe_ne hle
        obtain ⟨jw, hjw1, hjw2, hweq⟩ := remIds_mem _ _ _ _
          (hperm.subset (List.mem_cons_of_mem v hw))
        have hwne : w ≠ v := by
          intro hc
          rw [hc] at hw
          exact (List.nodup_cons.mp hnd).1 hw
        subst hweq
        exact hdist (cIdx ps.length t jw) (cIdx ps.length t d)
          (cIdx_lt _ _ _ hn0) (cIdx_lt _ _ _ hn0)
          (fun hc => hwne (by rw [hveq2, hc]))
    · -- the head event continues the backward (upward) chain
      have hveq2 : v = ⟨cIdx ps.length t r, 0⟩ := by rw [hveq, hjr2]
      have hb2 : isBelow (cPos ps t r) (cPos ps t (r + 1)) = true :=
        hup r (by omega) (by omega)
      have hb3 : isBelow (cPos ps t (r + 1)) (cPos ps t r) = false :=
        isBelow_asymm hb2
      have hb1 : isBelow (cPos ps t r) (cPos ps t (r - 1)) = false := by
        have hstep := hup (r - 1) (by omega) (by omega)
        rw [show r - 1 + 1 = r from by omega] at hstep
        exact isBelow_asymm hstep
      have hbelv : isBelow (cPos ps t r) mono.previous.pos = true := by
        have hv := hbelow v (List.mem_cons_self v rest)
        rw [hveq2] at hv
        exact hv
      obtain ⟨mono', hok, hsum, hms', hprev', -⟩ :=
        vertex_ok_spec mono (cPos ps t r) (cIdx ps.length t r)
          (chainSideU sw) hms hbelv
      have hT : Tesselator.testIntersection (sweepState ps t sw d r mono)
          (dEdge ps t d) (cVtx ps t r) (cVtx ps t (r - 1)) =
          sweepState ps t sw d r mono := by
        by_cases hcl : d = r - 1
        · apply testIntersection_lower_down
          show (⟨cIdx ps.length t d, 0⟩ : PathVertexId) =
            ⟨cIdx ps.length t (r - 1), 0⟩
          rw [hcl]
        · apply testIntersection_seg_none
          show segmentIntersection (cPos ps t (d - 1)) (cPos ps t d)
            (cPos ps t r) (cPos ps t (r - 1)) = none
          apply hnc (cIdx ps.length t (d - 1)) (cIdx ps.length t (r - 1))
            (cIdx_lt _ _ _ hn0) (cIdx_lt _ _ _ hn0) ?_ _ _ _ _ ?_ ?_
          · intro hc
            have h2 := cIdx_inj ps.length t (by omega) (by omega) hc
            omega
          · refine Or.inl ⟨rfl, ?_⟩
            rw [cIdx_succ, show d - 1 + 1 = d from by omega]
            rfl
          · refine Or.inr ⟨rfl, ?_⟩
            rw [cIdx_succ, show r - 1 + 1 = r from by omega]
            rfl
      rw [hveq2, tesselate_cons_ok (sweepStep_U ps t d r sw mono mono' hn0 hd1
        (by omega) hrn hb1 hb2 hb3 hT hok)]
      refine ih d (r - 1) sw mono' hd1 hdk (by omega) (by omega) ?_
        (List.Pairwise.of_cons hsort) hms' (by omega) ?_
      · rw [remIds_concat ps.length t d r (by omega) (by omega)] at hperm
        have hperm2 := hperm.trans (List.perm_append_singleton _ _)
        rw [hveq2] at hperm2
        exact hperm2.cons_inv
      · intro w hw
        rw [hprev']
        show isBelow (ps.getD w.vertexId ⟨0, 0⟩) (cPos ps t r) = true
        have hle := (List.pairwise_cons.mp hsort).1 w hw
        rw [hveq2] at hle
        unfold eventIdLe at hle
        rw [vertexPos_one, vertexPos_one] at hle
        apply isBelow_of_eventLe_ne hle
        obtain ⟨jw, hjw1, hjw2, hweq⟩ := remIds_mem _ _ _ _
          (hperm.subset (List.mem_cons_of_mem v hw))
        have hwne : w ≠ v := by
          intro hc
          rw [hc] at hw
          exact (List.nodup_cons.mp hnd).1 hw
        subst hweq
        exact hdist (cIdx ps.length t jw) (cIdx ps.length t r)
          (cIdx_lt _ _ _ hn0) (cIdx_lt _ _ _ hn0)
          (fun hc => hwne (by rw [hveq2, hc]))
    · -- the head event is the bottom vertex: close the span
      have hveq2 : v = ⟨cIdx ps.length t k, 0⟩ := by rw [hveq, hjk]
      have hsingle : remIds ps.length t d r = [⟨cIdx ps.length t k, 0⟩] := by
        unfold remIds
        rw [hdk2, hrk, show k + 1 - k = 1 from by omega]
        rfl
      rw [hsingle] at hperm
      have hlen := hperm.length_eq
      rw [List.length_cons, List.length_singleton] at hlen
      have hrest : rest = [] := List.length_eq_zero.mp (by omega)
      subst hrest
      have hb1 : isBelow (cPos ps t k) (cPos ps t (k - 1)) = true := by
        have hstep := hdown (k - 1) (by omega)
        rw [show k - 1 + 1 = k from by omega] at hstep
        exact hstep
      have hb2 : isBelow (cPos ps t k) (cPos ps t (k + 1)) = true :=
        hup k le_rfl (by omega)
      have hbelv : isBelow (cPos ps t k) mono.previous.pos = true := by
        have hv := hbelow v (List.mem_cons_self v [])
        rw [hveq2] at hv
        exact hv
      obtain ⟨mono2, hok, hsum, -, -, hstk⟩ :=
        vertex_ok_spec mono (cPos ps t k) (cIdx ps.length t k)
          mono.previous.side.opposite hms hbelv
      have hstk2 := hstk (Side.opposite_ne _)
      rw [hdk2, hrk, hveq2, tesselate_cons_ok (sweepStep_end ps t k sw mono
        mono2 hn0 (by omega) hb1 hb2 hok)]
      refine ⟨_, rfl, ?_⟩
      show ((⟨[], mono2.previous, mono2.triangles⟩ :
        MonotoneTesselator).flush ⟨[], []⟩).2.indices.length = ps.length - 2
      rw [flush_indices_length]
      show 0 + mono2.triangles.length = ps.length - 2
      omega

/-- Claim C1: one tessellation call on every simple, non-holed, y-monotone
closed polygon with `n >= 3` vertices emits exactly `n - 2` triangles.  The
polygon is one closed sub-path presented from an arbitrary starting vertex;
`t` is its top vertex (in the `(y, x)` sweep order) and `k` the number of
path-forward steps from `t` to the bottom vertex.  Monotonicity is the
hypothesis that both boundary chains strictly descend in the sweep order
(`hdown` for the forward chain, `hup` for the backward one);
non-self-intersection gives pairwise-distinct vertex positions (`hdist`) and
no proper crossing between two distinct edges in either orientation (`hnc`,
in terms of the modelled `segment_intersection`).  The conclusion runs the
whole pipeline — `set_path` sorting, the sweep with its intersection checks,
the per-span `MonotoneTesselator` — and counts the triangles the output sink
received. -/
theorem claim1_monotone_count (ps : List Vec2) (t k : ℕ)
    (hn3 : 3 ≤ ps.length) (ht : t < ps.length) (hk0 : 0 < k)
    (hkn : k < ps.length)
    (hdown : ∀ j, j < k →
      isBelow (ps.getD ((t + (j + 1)) % ps.length) ⟨0, 0⟩)
        (ps.getD ((t + j) % ps.length) ⟨0, 0⟩) = true)
    (hup : ∀ j, k ≤ j → j < ps.length →
      isBelow (ps.getD ((t + j) % ps.length) ⟨0, 0⟩)
        (ps.getD ((t + (j + 1)) % ps.length) ⟨0, 0⟩) = true)
    (hdist : ∀ i j, i < ps.length → j < ps.length → i ≠ j →
      ps.getD i ⟨0, 0⟩ ≠ ps.getD j ⟨0, 0⟩)
    (hnc : ∀ i j, i < ps.length → j < ps.length → i ≠ j →
      ∀ a b c d : Vec2,
      (a = ps.getD i ⟨0, 0⟩ ∧ b = ps.getD ((i + 1) % ps.length) ⟨0, 0⟩ ∨
       b = ps.getD i ⟨0, 0⟩ ∧ a = ps.getD ((i + 1) % ps.length) ⟨0, 0⟩) →
      (c = ps.getD j ⟨0, 0⟩ ∧ d = ps.getD ((j + 1) % ps.length) ⟨0, 0⟩ ∨
       d = ps.getD j ⟨0, 0⟩ ∧ c = ps.getD ((j + 1) % ps.length) ⟨0, 0⟩) →
      segmentIntersection a b c d = none) :
    ∃ tf, testPathRun ⟨[ps]⟩ = .ok tf ∧
      tf.output.indices.length = ps.length - 2 := by
  have hn0 : 0 < ps.length := by omega
  have hperm0 := perm_sortByLe (eventIdLe ⟨[ps]⟩)
    ((List.range (⟨[ps]⟩ : MPath).numVertices).map (⟨[ps]⟩ : MPath).pvid)
  have hsort0 := pairwise_sortByLe (eventIdLe ⟨[ps]⟩)
    (eventIdLe_total ⟨[ps]⟩) (eventIdLe_trans ⟨[ps]⟩)
    ((List.range (⟨[ps]⟩ : MPath).numVertices).map (⟨[ps]⟩ : MPath).pvid)
  have hmapeq : (List.range (⟨[ps]⟩ : MPath).numVertices).map
      (⟨[ps]⟩ : MPath).pvid =
      (List.range ps.length).map (fun i => (⟨i, 0⟩ : PathVertexId)) := by
    rw [numVertices_one]
    apply List.map_congr_left
    intro i hi
    exact pvid_one ps i (List.mem_range.mp hi)
  have hallperm : ((List.range ps.length).map
      (fun i => (⟨i, 0⟩ : PathVertexId))).Perm
      (remIds ps.length t 0 (ps.length - 1)) := by
    apply List.perm_of_nodup_nodup_toFinset_eq
    · apply List.Nodup.map_on
      · intro x _ y _ hxy
        exact congrArg PathVertexId.vertexId hxy
      · exact List.nodup_range ps.length
    · exact remIds_nodup ps.length t 0 (ps.length - 1) (by omega)
    · apply Finset.ext
      intro x
      simp only [List.mem_toFinset]
      constructor
      · intro hx
        rcases List.mem_map.mp hx with ⟨i, hi, rfl⟩
        have hi' := List.mem_range.mp hi
        have hceq : cIdx ps.length t ((i + ps.length - t) % ps.length) = i := by
          rw [cIdx_mod]
          unfold cIdx
          rw [show t + (i + ps.length - t) = i + ps.length from by omega]
          rw [Nat.add_mod_right]
          exact Nat.mod_eq_of_lt hi'
        have hmem := remIds_mem_of ps.length t 0 (ps.length - 1)
          ((i + ps.length - t) % ps.length) (Nat.zero_le _)
          (by have := Nat.mod_lt (i + ps.length - t) hn0; omega)
        rw [hceq] at hmem
        exact hmem
      · intro hx
        rcases remIds_mem _ _ _ _ hx with ⟨j, _, _, rfl⟩
        exact List.mem_map_of_mem _ (List.mem_range.mpr (cIdx_lt _ _ _ hn0))
  have hperm1 : (setPath ⟨[ps]⟩).Perm (remIds ps.length t 0 (ps.length - 1)) := by
    rw [← hmapeq] at hallperm
    exact hperm0.trans hallperm
  have hsort1 : (setPath ⟨[ps]⟩).Pairwise
      (fun a b => eventIdLe ⟨[ps]⟩ a b = true) := hsort0
  obtain ⟨v0, rest0, hes0⟩ : ∃ v0 rest0, setPath ⟨[ps]⟩ = v0 :: rest0 := by
    cases hsp : setPath ⟨[ps]⟩ with
    | nil =>
      exfalso
      rw [hsp] at hperm1
      exact absurd (hperm1.symm.subset (remIds_mem_of ps.length t 0
        (ps.length - 1) 0 le_rfl (by omega))) (List.not_mem_nil _)
    | cons a l => exact ⟨a, l, rfl⟩
  rw [hes0] at hperm1 hsort1
  have hv0mem : v0 ∈ remIds ps.length t 0 (ps.length - 1) :=
    hperm1.subset (List.mem_cons_self _ _)
  obtain ⟨j0, hj0d, hj0r, hv0eq⟩ := remIds_mem _ _ _ _ hv0mem
  have hexc1 : ¬ (0 < j0 ∧ j0 ≤ k) := by
    rintro ⟨h1, h2⟩
    refine sorted_head_exclusion ⟨[ps]⟩ v0 ⟨cIdx ps.length t (j0 - 1), 0⟩
      rest0 hsort1 ?_ ?_ ?_
    · exact (hperm1.mem_iff).mpr (remIds_mem_of ps.length t 0 (ps.length - 1)
        (j0 - 1) (Nat.zero_le _) (by omega))
    · rw [hv0eq]
      intro hc
      have h3 := cIdx_inj ps.length t (by omega) (by omega)
        (congrArg PathVertexId.vertexId hc)
      omega
    · rw [hv0eq]
      rw [vertexPos_one, vertexPos_one]
      have hstep := hdown (j0 - 1) (by omega)
      rw [show j0 - 1 + 1 = j0 from by omega] at hstep
      exact hstep
  have hexc2 : ¬ (k ≤ j0 ∧ 0 < j0) := by
    rintro ⟨h1, h1p⟩
    have hj0n : j0 < ps.length := by omega
    have hcnext : cIdx ps.length t ((j0 + 1) % ps.length) =
      cIdx ps.length t (j0 + 1) := cIdx_mod _ _ _
    refine sorted_head_exclusion ⟨[ps]⟩ v0 ⟨cIdx ps.length t (j0 + 1), 0⟩
      rest0 hsort1 ?_ ?_ ?_
    · have hmem := remIds_mem_of ps.length t 0 (ps.length - 1)
        ((j0 + 1) % ps.length) (Nat.zero_le _)
        (by have := Nat.mod_lt (j0 + 1) hn0; omega)
      rw [hcnext] at hmem
      exact (hperm1.mem_iff).mpr hmem
    · rw [hv0eq]
      intro hc
      have h3 := congrArg PathVertexId.vertexId hc
      rw [← hcnext] at h3
      have h4 := cIdx_inj ps.length t (Nat.mod_lt _ hn0) hj0n h3
      rcases Nat.lt_or_ge (j0 + 1) ps.length with hlt | hge
      · rw [Nat.mod_eq_of_lt hlt] at h4
        omega
      · rw [show j0 + 1 = ps.length from by omega, Nat.mod_self] at h4
        omega
    · rw [hv0eq]
      rw [vertexPos_one, vertexPos_one]
      exact hup j0 h1 hj0n
  have hj00 : j0 = 0 := by omega
  have hv0eq2 : v0 = ⟨cIdx ps.length t 0, 0⟩ := by rw [hv0eq, hj00]
  have hb1 : isBelow (cPos ps t 0) (cPos ps t (ps.length - 1)) = false := by
    have hstep := hup (ps.length - 1) (by omega) (by omega)
    rw [show (t + (ps.length - 1 + 1)) % ps.length = (t + 0) % ps.length
      from by rw [show ps.length - 1 + 1 = ps.length from by omega]
              exact cIdx_cycle ps.length t] at hstep
    exact isBelow_asymm hstep
  have hb2 : isBelow (cPos ps t 0) (cPos ps t 1) = false :=
    isBelow_asymm (hdown 0 hk0)
  obtain ⟨sw, hstart⟩ := sweepStart ps t hn0 hb1 hb2
  unfold testPathRun
  rw [hes0, hv0eq2]
  rw [tesselate_cons_ok hstart]
  refine sweepLoop_spec ps t k ht hk0 hkn hdown hup hdist hnc rest0 1
    (ps.length - 1) sw _ le_rfl hk0 (by omega) le_rfl ?_
    (List.Pairwise.of_cons hsort1) ?_ ?_ ?_
  · rw [remIds_cons ps.length t 0 (ps.length - 1) (by omega)] at hperm1
    rw [hv0eq2] at hperm1
    exact hperm1.cons_inv
  · simp [MonotoneTesselator.begin]
  · show 1 + 0 + (ps.length - 1) + 1 = 1 + ps.length
    omega
  · intro w hw
    show isBelow (ps.getD w.vertexId ⟨0, 0⟩) (cPos ps t 0) = true
    have hle := (List.pairwise_cons.mp hsort1).1 w hw
    rw [hv0eq2] at hle
    unfold eventIdLe at hle
    rw [vertexPos_one, vertexPos_one] at hle
    apply isBelow_of_eventLe_ne hle
    obtain ⟨jw, hjw1, hjw2, hweq⟩ := remIds_mem _ _ _ _
      (hperm1.subset (List.mem_cons_of_mem v0 hw))
    have hnd : (v0 :: rest0).Nodup :=
      (hperm1.nodup_iff).mpr (remIds_nodup ps.length t 0 (ps.length - 1)
        (by omega))
    have hwne : w ≠ v0 := by
      intro hc
      rw [hc] at hw
      exact (List.nodup_cons.mp hnd).1 hw
    subst hweq
    exact hdist (cIdx ps.length t jw) (cIdx ps.length t 0)
      (cIdx_lt _ _ _ hn0) (cIdx_lt _ _ _ hn0)
      (fun hc => hwne (by rw [hv0eq2, hc]))

/-- The concrete y-monotone polygon of the C1 witness: a triangle with top
`(0,0)`, middle `(-1,1)` and bottom `(0,2)`. -/
def c1Triangle : List Vec2 := [⟨0, 0⟩, ⟨-1, 1⟩, ⟨0, 2⟩]

theorem claim1_monotone_count_witness :
    3 ≤ c1Triangle.length ∧
    (∃ tf, testPathRun ⟨[c1Triangle]⟩ = .ok tf ∧
      tf.output.indices.length = c1Triangle.length - 2) :=
  ⟨by decide,
   claim1_monotone_count c1Triangle 0 2 (by decide) (by decide) (by decide)
    (by decide)
    (by
      intro j hj
      interval_cases j <;> decide)
    (by
      intro j hj1 hj2
      have hj3 : j < 3 := hj2
      interval_cases j
      decide)
    (by
      intro i j hi hj hne
      have hi3 : i < 3 := hi
      have hj3 : j < 3 := hj
      interval_cases i <;> interval_cases j <;>
        first
          | exact absurd rfl hne
          | decide)
    (by
      intro i j hi hj hne a b c d h1 h2
      have hi3 : i < 3 := hi
      have hj3 : j < 3 := hj
      rcases h1 with ⟨ha, hb⟩ | ⟨hb, ha⟩ <;>
        rcases h2 with ⟨hc, hd⟩ | ⟨hd, hc⟩ <;>
        subst ha <;> subst hb <;> subst hc <;> subst hd <;>
        interval_cases i <;> interval_cases j <;>
        first
          | exact absurd rfl hne
          | with_unfolding_all rfl)⟩

/-! ### Claims about the full sweep -/

/-- The self-intersecting 4-vertex bowtie path of
`test_tesselator_auto_intersection_type1` (`path_tesselator.rs:1077`). -/
def bowtiePath : MPath := ⟨[[⟨0, 0⟩, ⟨2, 1⟩, ⟨0, 2⟩, ⟨2, 3⟩]]⟩

/-- Claim C3: tessellating the closed bowtie path (0,0),(2,1),(0,2),(2,3)
emits exactly 2 triangles; the crossing is resolved by exactly one synthetic
vertex (at `(1, 3/2)`, the only position pushed to the output) replayed as
exactly one intersection event. -/
theorem claim3_bowtie :
    (match testPathRun bowtiePath with
      | .ok t => some (t.output.indices.length, t.output.vertices,
          t.interReplayed)
      | .error _ => none) = some (2, [⟨1, 3/2⟩], 1) := by
  with_unfolding_all rfl

/-- The exactly-collinear closed 3-vertex path (0,0),(2,0),(1,0): degenerate
geometry in the sense of §7 (`DegenerateInput`). -/
def collinearPath : MPath := ⟨[[⟨0, 0⟩, ⟨2, 0⟩, ⟨1, 0⟩]]⟩

/-- Claim C7, evaluation at the failing input: on the exactly-collinear path
`tesselate_path_fill` does not return an error value — it returns `Ok(())` —
and the caller's sink holds one garbage triangle `(0, 2, 1)` over the three
pushed collinear positions (zero signed area, second conjunct). -/
theorem claim7_collinear_ok_with_garbage :
    (match tesselate_path_fill collinearPath ⟨[], []⟩ with
      | .ok (_, o) => some (o.indices, o.vertices)
      | .error _ => none)
      = some ([(0, 2, 1)], [⟨0, 0⟩, ⟨2, 0⟩, ⟨1, 0⟩]) ∧
    crossQ ((⟨1, 0⟩ : Vec2) - ⟨0, 0⟩) ((⟨2, 0⟩ : Vec2) - ⟨0, 0⟩) = 0 := by
  constructor
  · with_unfolding_all rfl
  · with_unfolding_all rfl

/-! ### Claim C6: the all-coincident degenerate path -/

/-- Shape of every span created while sweeping a path all of whose vertices
share position `c`: all four edge endpoints at `c`, no merge flags. -/
def DegenSpan (c : Vec2) (sp : Span) : Prop :=
  sp.left.upper.position = c ∧ sp.left.lower.position = c ∧
  sp.left.merge = false ∧ sp.right.upper.position = c ∧
  sp.right.lower.position = c ∧ sp.right.merge = false

theorem isBelow_self (a : Vec2) : isBelow a a = false := by
  simp [isBelow]

theorem lhi_self (c : Vec2) : lineHorizontalIntersection c c c.y = c.x := by
  simp [lineHorizontalIntersection]

theorem findSpanUpLoop_degen (c : Vec2) :
    ∀ (spans : List Span) (idx : ℕ), (∀ sp ∈ spans, DegenSpan c sp) →
      findSpanUpLoop c.x c.y idx spans = (idx + spans.length, false) := by
  intro spans
  induction spans with
  | nil => intro idx _; simp [findSpanUpLoop]
  | cons sp rest ih =>
    intro idx hdeg
    rcases hdeg sp (List.mem_cons_self sp rest) with ⟨h1, h2, _, h4, h5, _⟩
    rw [findSpanUpLoop, h1, h2, h4, h5, lhi_self]
    rw [if_neg (by simp), if_neg (by simp)]
    rw [ih (idx + 1) (fun s hs => hdeg s (List.mem_cons_of_mem sp hs))]
    simp only [List.length_cons]
    have harith : idx + 1 + rest.length = idx + (rest.length + 1) := by omega
    rw [harith]

theorem testIntersection_same_pos (t : Tesselator) (edge : SpanEdge)
    (up down : Vertex) (h : up.position = down.position) :
    t.testIntersection edge up down = t := by
  unfold Tesselator.testIntersection
  split
  · have hseg : segmentIntersection edge.upper.position edge.lower.position
        up.position down.position = none := by
      unfold segmentIntersection
      rw [if_pos]
      rw [h]
      simp [crossQ]
    rw [hseg]
  · rfl

theorem checkIntersectionsLoop_same_pos (spanIndex : ℕ) (side : Side)
    (up down : Vertex) (h : up.position = down.position) :
    ∀ (spans : List Span) (idx : ℕ) (t : Tesselator),
      checkIntersectionsLoop spanIndex side up down t idx spans = t := by
  intro spans
  induction spans with
  | nil => intro idx t; rfl
  | cons sp rest ih =>
    intro idx t
    rw [checkIntersectionsLoop]
    simp only [testIntersection_same_pos _ _ _ _ h]
    split <;> split <;> exact ih (idx + 1) t

theorem checkIntersections_same_pos (t : Tesselator) (spanIndex : ℕ)
    (side : Side) (up down : Vertex) (h : up.position = down.position) :
    t.checkIntersections spanIndex side up down = t :=
  checkIntersectionsLoop_same_pos spanIndex side up down h t.spans 0 t

/-- Processing one all-coincident event: the classifier sees an up event, the
span lookup walks past every span, both intersection checks are no-ops, and
one fresh degenerate span is appended.  Nothing is written to the output and
the intersection queue stays untouched. -/
theorem dirAngleLtPi_sub_self (c : Vec2) :
    dirAngleLtPi (c - c) (c - c) = true := by
  unfold dirAngleLtPi Vec2.isZero
  simp

theorem onEvent_degen (c : Vec2) (t : Tesselator) (evt : Event)
    (hc : evt.current.position = c) (hp : evt.previous.position = c)
    (hn : evt.next.position = c)
    (hspans : ∀ sp ∈ t.spans, DegenSpan c sp) :
    ∃ spans', t.onEvent evt = .ok { t with spans := spans' } ∧
      ∀ sp ∈ spans', DegenSpan c sp := by
  obtain ⟨cur, nxt, prv⟩ := evt
  obtain ⟨cpos, cid⟩ := cur
  obtain ⟨npos, nid⟩ := nxt
  obtain ⟨ppos, pid⟩ := prv
  have hc' : c = cpos := (hc : cpos = c).symm
  have hp' : c = ppos := (hp : ppos = c).symm
  have hn' : c = npos := (hn : npos = c).symm
  subst hc'
  subst hp'
  subst hn'
  unfold Tesselator.onEvent
  dsimp only
  rw [isBelow_self]
  simp only [Bool.and_self, Bool.false_eq_true, ite_false, Bool.not_false,
    ite_true]
  unfold Tesselator.onUpEvent
  dsimp only
  have hfs : t.findSpanUp ⟨c, cid⟩ = (t.spans.length, false) := by
    unfold Tesselator.findSpanUp
    exact findSpanUpLoop_degen c t.spans 0 hspans |>.trans (by simp)
  rw [hfs, dirAngleLtPi_sub_self]
  simp only [ite_true, Bool.false_eq_true, ite_false]
  rw [checkIntersections_same_pos t t.spans.length Side.left ⟨c, cid⟩
    ⟨c, nid⟩ rfl]
  rw [checkIntersections_same_pos t t.spans.length Side.right ⟨c, cid⟩
    ⟨c, pid⟩ rfl]
  rw [List.insertIdx_length_self]
  refine ⟨_, rfl, ?_⟩
  intro sp hsp
  rcases List.mem_append.mp hsp with hsp | hsp
  · exact hspans sp hsp
  · rcases List.mem_singleton.mp hsp with rfl
    exact ⟨rfl, rfl, rfl, rfl, rfl, rfl⟩

/-- Sweeping any list of all-coincident events succeeds, emits nothing and
only accumulates degenerate spans. -/
theorem tesselate_degen (c : Vec2) :
    ∀ (evs : List PathVertexId) (t : Tesselator),
      (∀ e ∈ evs, (mkEvent t.path e).current.position = c ∧
        (mkEvent t.path e).previous.position = c ∧
        (mkEvent t.path e).next.position = c) →
      t.intersections = [] →
      (∀ sp ∈ t.spans, DegenSpan c sp) →
      ∃ spans', t.tesselate evs = .ok { t with spans := spans' } ∧
        ∀ sp ∈ spans', DegenSpan c sp := by
  intro evs
  induction evs with
  | nil =>
    intro t _ _ hspans
    exact ⟨t.spans, rfl, hspans⟩
  | cons e rest ih =>
    intro t hev hint hspans
    rcases hev e (List.mem_cons_self e rest) with ⟨hc, hp, hn⟩
    have hdrain : t.drainIntersections (mkEvent t.path e).current.position
        t.intersections.length = .ok t := by
      rw [hint]
      rfl
    rcases onEvent_degen c t (mkEvent t.path e) hc hp hn hspans with
      ⟨spans1, hok, hdeg1⟩
    have hproc : t.processEvent e = .ok { t with spans := spans1 } := by
      unfold Tesselator.processEvent
      dsimp only
      rw [hdrain]
      exact hok
    rcases ih { t with spans := spans1 }
      (fun e' he' => hev e' (List.mem_cons_of_mem e he'))
      hint hdeg1 with ⟨spans2, hok2, hdeg2⟩
    refine ⟨spans2, ?_, hdeg2⟩
    rw [Tesselator.tesselate, hproc]
    exact hok2

/-- The all-coincident closed path with `n` vertices at `c`. -/
def samePosPath (n : ℕ) (c : Vec2) : MPath := ⟨[List.replicate n c]⟩

theorem samePosPath_numVertices (n : ℕ) (c : Vec2) :
    (samePosPath n c).numVertices = n := by
  simp [samePosPath, MPath.numVertices]

theorem samePosPath_vertexPos (n : ℕ) (c : Vec2) (i : ℕ) (h : i < n) :
    (samePosPath n c).vertexPos i = c := by
  unfold MPath.vertexPos samePosPath
  simp [h]

theorem samePosPath_locate (n : ℕ) (c : Vec2) (i : ℕ) (h : i < n) :
    locatePath (samePosPath n c).subPaths i 0 0 =
      (0, 0, i, List.replicate n c) := by
  unfold samePosPath
  rw [locatePath]
  rw [if_pos (by simpa using h)]

theorem samePosPath_nextId_lt (n : ℕ) (c : Vec2) (i : ℕ) (h : i < n) :
    (samePosPath n c).nextId i < n := by
  unfold MPath.nextId
  rw [samePosPath_locate n c i h]
  simp only [List.length_replicate, Nat.zero_add]
  exact Nat.mod_lt _ (by omega)

theorem samePosPath_prevId_lt (n : ℕ) (c : Vec2) (i : ℕ) (h : i < n) :
    (samePosPath n c).prevId i < n := by
  unfold MPath.prevId
  rw [samePosPath_locate n c i h]
  simp only [List.length_replicate, Nat.zero_add]
  exact Nat.mod_lt _ (by omega)

theorem samePosPath_event_pos (n : ℕ) (c : Vec2) (e : PathVertexId)
    (h : e.vertexId < n) :
    (mkEvent (samePosPath n c) e).current.position = c ∧
    (mkEvent (samePosPath n c) e).previous.position = c ∧
    (mkEvent (samePosPath n c) e).next.position = c := by
  refine ⟨samePosPath_vertexPos n c _ h, ?_, ?_⟩
  · exact samePosPath_vertexPos n c _ (samePosPath_prevId_lt n c _ h)
  · exact samePosPath_vertexPos n c _ (samePosPath_nextId_lt n c _ h)

/-- Claim C6: tessellating a closed path of `n` coincident vertices — for
every `n` and every common position `c` — terminates without any panic and
emits 0 triangles (and pushes no vertices). -/
theorem claim6_all_coincident (n : ℕ) (c : Vec2) :
    ∃ t, testPathRun (samePosPath n c) = .ok t ∧
      t.output.indices = [] ∧ t.output.vertices = [] := by
  have hev : ∀ e ∈ setPath (samePosPath n c), e.vertexId < n := by
    intro e he
    have hmem := (perm_sortByLe (eventIdLe (samePosPath n c)) _).mem_iff.mp he
    rcases List.mem_map.mp hmem with ⟨i, hi, rfl⟩
    rw [samePosPath_numVertices] at hi
    exact List.mem_range.mp hi
  rcases tesselate_degen c (setPath (samePosPath n c))
    (Tesselator.new (samePosPath n c) ⟨[], []⟩)
    (fun e he => samePosPath_event_pos n c e (hev e he))
    rfl (by intro sp hsp; simp [Tesselator.new] at hsp) with
    ⟨spans', hok, _⟩
  exact ⟨_, hok, rfl, rfl⟩

/-! ### `IdLookupTable` (`src/collections/id_lookup_table.rs`)

Indexing uses `getD`/`set`; a valid operation sequence (the claim's setting)
keeps every access in bounds, where `getD`/`set` agree with Rust's panicking
indexing. -/

/-- `FREE_LIST_NONE` (`src/src/vodk/base/containers.rs:4`; the
`collections/freelist_vector.rs` module the table imports is not under
`src/`, but this older copy of it in the repository fixes the sentinel). -/
def FREE_LIST_NONE : ℕ := 2147483647

/-- `IdLookupTable` (`id_lookup_table.rs:3`): dense array `data_to_index`,
sparse array `index_to_data`, intrusive free list head. -/
structure IdLookupTable where
  dataToIndex : List ℕ
  indexToData : List ℕ
  freeList : ℕ
deriving DecidableEq, Repr

/-- `IdLookupTable::new` (`id_lookup_table.rs:13`). -/
def IdLookupTable.new : IdLookupTable := ⟨[], [], FREE_LIST_NONE⟩

/-- `IdLookupTable::add` (`id_lookup_table.rs:29`); returns the table and the
new id. -/
def IdLookupTable.add (t : IdLookupTable) : IdLookupTable × ℕ :=
  if t.freeList = FREE_LIST_NONE then
    let i2d := t.indexToData ++ [t.dataToIndex.length]
    let d2i := t.dataToIndex ++ [i2d.length - 1]
    (⟨d2i, i2d, t.freeList⟩, i2d.length - 1)
  else
    let idx := t.freeList
    let fl' := t.indexToData.getD idx 0
    let i2d := t.indexToData.set idx t.dataToIndex.length
    (⟨t.dataToIndex ++ [idx], i2d, fl'⟩, idx)

/-- `IdLookupTable::remove` (`id_lookup_table.rs:42`). -/
def IdLookupTable.remove (t : IdLookupTable) (idx : ℕ) : IdLookupTable :=
  let o := t.indexToData.getD idx 0
  let t1 :=
    if o = t.dataToIndex.length - 1 then
      { t with dataToIndex := t.dataToIndex.dropLast }
    else
      let moved := t.dataToIndex.getLastD 0
      ⟨(t.dataToIndex.dropLast).set o moved, t.indexToData.set moved o,
        t.freeList⟩
  { t1 with indexToData := t1.indexToData.set idx t.freeList, freeList := idx }

/-- `IdLookupTable::lookup` (`id_lookup_table.rs:61`). -/
def IdLookupTable.lookup (t : IdLookupTable) (idx : ℕ) : ℕ :=
  t.indexToData.getD idx 0

/-- `IdLookupTable::index_for_offset` (`id_lookup_table.rs:63`). -/
def IdLookupTable.index_for_offset (t : IdLookupTable) (idx : ℕ) : ℕ :=
  t.dataToIndex.getD idx 0

/-- `IdLookupTable::len` (`id_lookup_table.rs:65`). -/
def IdLookupTable.len (t : IdLookupTable) : ℕ := t.dataToIndex.length

/-- `IdLookupTable::swap_offsets` (`id_lookup_table.rs:82`), translated
statement for statement: the last two stores read the already-swapped dense
array. -/
def IdLookupTable.swap_offsets (t : IdLookupTable) (o1 o2 : ℕ) :
    IdLookupTable :=
  let temp := t.dataToIndex.getD o1 0
  let d1 := t.dataToIndex.set o1 (t.dataToIndex.getD o2 0)
  let d2 := d1.set o2 temp
  let i1 := t.indexToData.set (d2.getD o2 0) o1
  let i2 := i1.set (d2.getD o1 0) o2
  ⟨d2, i2, t.freeList⟩

/-- Claim C9, evaluated at the failing input: starting from an empty table,
`add` returns ids 0 and 1; after the valid operation sequence
`[add, add, swap_offsets 0 1]` the live id 0 violates
`index_for_offset(lookup(id)) == id` — `swap_offsets` writes the two
back-pointers crosswise (`id_lookup_table.rs:86-87` store `o1` for the entry
moved to `o2` and vice versa).  `remove`'s length contract at a valid input is
also evaluated: after `[add, add, remove 0]`, `len` drops from 2 to 1 and the
freed id heads the free list. -/
theorem claim9_swap_offsets_backpointer_bug :
    (IdLookupTable.new.add.2 = 0 ∧ IdLookupTable.new.add.1.add.2 = 1) ∧
    (IdLookupTable.new.add.1.add.1.swap_offsets 0 1).index_for_offset
      ((IdLookupTable.new.add.1.add.1.swap_offsets 0 1).lookup 0) = 1 ∧
    (IdLookupTable.new.add.1.add.1.remove 0).len = 1 ∧
    IdLookupTable.new.add.1.add.1.len = 2 ∧
    (IdLookupTable.new.add.1.add.1.remove 0).freeList = 0 := by
  decide

/-! ### Claim C5: which edges the intersection check may act on -/

/-- The modelled `segment_intersection` reports no crossing whenever the two
segments share an endpoint position: the shared point forces the
interpolation parameter `t` to `0` or `1`, outside the strict `(0, 1)`. -/
theorem segmentIntersection_shared (a1 a2 b1 b2 : Vec2)
    (h : a1 = b1 ∨ a1 = b2 ∨ a2 = b1 ∨ a2 = b2) :
    segmentIntersection a1 a2 b1 b2 = none := by
  unfold segmentIntersection
  by_cases hdet : crossQ (a2 - a1) (b2 - b1) = 0
  · rw [if_pos hdet]
  · rw [if_neg hdet]
    rcases h with rfl | rfl | rfl | rfl
    · have h0 : crossQ (a1 - a1) (b2 - a1) = 0 := by
        simp [crossQ]
      rw [h0, zero_div]
      rw [if_neg]
      intro hcon
      exact absurd hcon.1 (lt_irrefl 0)
    · have h0 : crossQ (b1 - a1) (a1 - b1) = 0 := by
        simp only [crossQ, Vec2.sub_x, Vec2.sub_y]
        ring
      rw [h0, zero_div]
      rw [if_neg]
      intro hcon
      exact absurd hcon.1 (lt_irrefl 0)
    · rw [div_self hdet]
      rw [if_neg]
      intro hcon
      exact absurd hcon.2.1 (lt_irrefl 1)
    · have h0 : crossQ (b1 - a1) (a2 - b1) = crossQ (a2 - a1) (a2 - b1) := by
        simp only [crossQ, Vec2.sub_x, Vec2.sub_y]
        ring
      rw [h0, div_self hdet]
      rw [if_neg]
      intro hcon
      exact absurd hcon.2.1 (lt_irrefl 1)

/-- An edge shares an endpoint with the new segment when one of its two
vertices carries the id of one of the segment's two vertices (§4.5). -/
def sharesEndpoint (e : SpanEdge) (up down : Vertex) : Prop :=
  e.upper.id = up.id ∨ e.upper.id = down.id ∨
  e.lower.id = up.id ∨ e.lower.id = down.id

instance (e : SpanEdge) (up down : Vertex) :
    Decidable (sharesEndpoint e up down) := by
  unfold sharesEndpoint
  infer_instance

/-- Well-formedness tying ids to positions among the four vertices involved:
an edge endpoint carrying the id of `up`/`down` sits at that vertex's
position (true of every reachable sweep state, where a `Vertex` value is
determined by its id). -/
def EdgeIdConsistent (up down : Vertex) (e : SpanEdge) : Prop :=
  (e.upper.id = up.id → e.upper.position = up.position) ∧
  (e.upper.id = down.id → e.upper.position = down.position) ∧
  (e.lower.id = up.id → e.lower.position = up.position) ∧
  (e.lower.id = down.id → e.lower.position = down.position)

instance (up down : Vertex) (e : SpanEdge) :
    Decidable (EdgeIdConsistent up down e) := by
  unfold EdgeIdConsistent
  infer_instance

/-- An excluded edge — parked in merge or sharing an endpoint with the new
segment — produces no `Intersection` record and no synthetic vertex:
`test_intersection` returns the state unchanged. -/
theorem testIntersection_excluded (s : Tesselator) (edge : SpanEdge)
    (up down : Vertex) (hwf : EdgeIdConsistent up down edge)
    (hexc : edge.merge = true ∨ sharesEndpoint edge up down) :
    s.testIntersection edge up down = s := by
  unfold Tesselator.testIntersection
  by_cases hguard : edge.merge = false ∧ edge.lower.id ≠ up.id ∧
      edge.lower.id ≠ down.id
  · rw [if_pos hguard]
    have hseg : segmentIntersection edge.upper.position edge.lower.position
        up.position down.position = none := by
      apply segmentIntersection_shared
      rcases hexc with hm | hu | hu | hl | hl
      · rw [hguard.1] at hm
        exact absurd hm (by simp)
      · exact Or.inl (hwf.1 hu)
      · exact Or.inr (Or.inl (hwf.2.1 hu))
      · exact absurd hl hguard.2.1
      · exact absurd hl hguard.2.2
    rw [hseg]
  · rw [if_neg hguard]

/-- The loop §4.5 describes, written from the spec's words: iterate over the
other spans' left and right edges, skipping edges parked in merge and edges
sharing an endpoint with the new segment.  Compared with the source's
`checkIntersectionsLoop` in claim C5. -/
def checkIntersectionsSpecLoop (spanIndex : ℕ) (side : Side)
    (up down : Vertex) : Tesselator → ℕ → List Span → Tesselator
  | t, _, [] => t
  | t, idx, sp :: rest =>
    let t1 := if (idx ≠ spanIndex ∨ side = Side.right) ∧
        ¬ (sp.left.merge = true ∨ sharesEndpoint sp.left up down) then
        t.testIntersection sp.left up down
      else t
    let t2 := if (idx ≠ spanIndex ∨ side = Side.left) ∧
        ¬ (sp.right.merge = true ∨ sharesEndpoint sp.right up down) then
        t1.testIntersection sp.right up down
      else t1
    checkIntersectionsSpecLoop spanIndex side up down t2 (idx + 1) rest

theorem checkIntersectionsLoop_eq_spec (spanIndex : ℕ) (side : Side)
    (up down : Vertex) :
    ∀ (spans : List Span) (idx : ℕ) (s : Tesselator),
      (∀ sp ∈ spans, EdgeIdConsistent up down sp.left ∧
        EdgeIdConsistent up down sp.right) →
      checkIntersectionsLoop spanIndex side up down s idx spans =
      checkIntersectionsSpecLoop spanIndex side up down s idx spans := by
  intro spans
  induction spans with
  | nil => intro idx s _; rfl
  | cons sp rest ih =>
    intro idx s hwf
    rcases hwf sp (List.mem_cons_self sp rest) with ⟨hwl, hwr⟩
    rw [checkIntersectionsLoop, checkIntersectionsSpecLoop]
    have hrest := fun s' hs' => hwf s' (List.mem_cons_of_mem sp hs')
    have step1 : (if idx ≠ spanIndex ∨ side = Side.right then
        s.testIntersection sp.left up down else s) =
        (if (idx ≠ spanIndex ∨ side = Side.right) ∧
          ¬ (sp.left.merge = true ∨ sharesEndpoint sp.left up down) then
          s.testIntersection sp.left up down else s) := by
      by_cases hpos : idx ≠ spanIndex ∨ side = Side.right
      · by_cases hexc : sp.left.merge = true ∨ sharesEndpoint sp.left up down
        · rw [if_pos hpos, if_neg (by tauto)]
          exact testIntersection_excluded s sp.left up down hwl hexc
        · rw [if_pos hpos, if_pos ⟨hpos, hexc⟩]
      · rw [if_neg hpos, if_neg (by tauto)]
    rw [step1]
    set s1 := (if (idx ≠ spanIndex ∨ side = Side.right) ∧
      ¬ (sp.left.merge = true ∨ sharesEndpoint sp.left up down) then
      s.testIntersection sp.left up down else s)
    have step2 : (if idx ≠ spanIndex ∨ side = Side.left then
        s1.testIntersection sp.right up down else s1) =
        (if (idx ≠ spanIndex ∨ side = Side.left) ∧
          ¬ (sp.right.merge = true ∨ sharesEndpoint sp.right up down) then
          s1.testIntersection sp.right up down else s1) := by
      by_cases hpos : idx ≠ spanIndex ∨ side = Side.left
      · by_cases hexc : sp.right.merge = true ∨ sharesEndpoint sp.right up down
        · rw [if_pos hpos, if_neg (by tauto)]
          exact testIntersection_excluded s1 sp.right up down hwr hexc
        · rw [if_pos hpos, if_pos ⟨hpos, hexc⟩]
      · rw [if_neg hpos, if_neg (by tauto)]
    rw [step2]
    exact ih (idx + 1) _ hrest

/-- Claim C5: (first conjunct) in any state, an edge parked in merge or
sharing an endpoint with the new segment produces no `Intersection` record
and no synthetic vertex — `test_intersection` is the identity on it; (second
conjunct) consequently `check_intersections` coincides with the iteration the
spec describes, which tests exactly the non-excluded left and right edges of
the spans, skipping the excluded ones. -/
theorem claim5_check_intersections (t : Tesselator) (spanIndex : ℕ)
    (side : Side) (up down : Vertex)
    (hwf : ∀ sp ∈ t.spans, EdgeIdConsistent up down sp.left ∧
      EdgeIdConsistent up down sp.right) :
    (∀ (s : Tesselator) (edge : SpanEdge), EdgeIdConsistent up down edge →
      (edge.merge = true ∨ sharesEndpoint edge up down) →
      s.testIntersection edge up down = s) ∧
    t.checkIntersections spanIndex side up down =
      checkIntersectionsSpecLoop spanIndex side up down t 0 t.spans :=
  ⟨fun s edge h1 h2 => testIntersection_excluded s edge up down h1 h2,
   checkIntersectionsLoop_eq_spec spanIndex side up down t.spans 0 t hwf⟩

/-- Concrete data for the C5 witness: a new segment `c5Up → c5Down` and one
active span whose left edge shares both endpoints with it and whose right
edge is parked in merge. -/
def c5Up : Vertex := ⟨⟨0, 0⟩, ⟨0, 0⟩⟩

def c5Down : Vertex := ⟨⟨1, 1⟩, ⟨1, 0⟩⟩

def c5Span : Span :=
  { left := ⟨c5Up, c5Down, false⟩,
    right := ⟨⟨⟨5, 0⟩, ⟨7, 0⟩⟩, ⟨⟨5, 1⟩, ⟨8, 0⟩⟩, true⟩,
    monotoneTesselator := MonotoneTesselator.begin ⟨0, 0⟩ 0 }

def c5State : Tesselator :=
  { path := ⟨[]⟩, spans := [c5Span], intersections := [],
    nextNewVertex := ⟨9, 0⟩, output := ⟨[], []⟩, interReplayed := 0 }

/-- Witness for C5 at the concrete one-span state. -/
theorem claim5_check_intersections_witness :
    (∀ sp ∈ c5State.spans, EdgeIdConsistent c5Up c5Down sp.left ∧
      EdgeIdConsistent c5Up c5Down sp.right) ∧
    ((∀ (s : Tesselator) (edge : SpanEdge),
      EdgeIdConsistent c5Up c5Down edge →
      (edge.merge = true ∨ sharesEndpoint edge c5Up c5Down) →
      s.testIntersection edge c5Up c5Down = s) ∧
    c5State.checkIntersections 5 Side.left c5Up c5Down =
      checkIntersectionsSpecLoop 5 Side.left c5Up c5Down c5State 0
        c5State.spans) := by
  have hwf : ∀ sp ∈ c5State.spans, EdgeIdConsistent c5Up c5Down sp.left ∧
      EdgeIdConsistent c5Up c5Down sp.right := by
    intro sp hsp
    rcases List.mem_singleton.mp hsp with rfl
    refine ⟨⟨fun _ => rfl, fun h => absurd h (by decide),
      fun h => absurd h (by decide), fun _ => rfl⟩,
      ⟨fun h => absurd h (by decide), fun h => absurd h (by decide),
      fun h => absurd h (by decide), fun h => absurd h (by decide)⟩⟩
  exact ⟨hwf, claim5_check_intersections c5State 5 Side.left c5Up c5Down hwf⟩

/-! ### Claim C4: the intersection-queue discipline -/

/-- The intersection queue is sorted by the `(y, x)` order of its synthetic
points. -/
def InterSorted (t : Tesselator) : Prop :=
  t.intersections.Pairwise (fun a b => interLe a b = true)

theorem interLe_total (a b : Intersection) :
    interLe a b = true ∨ interLe b a = true :=
  eventLe_total _ _

theorem interLe_trans {a b c : Intersection} (hab : interLe a b = true)
    (hbc : interLe b c = true) : interLe a c = true :=
  eventLe_trans hab hbc

theorem sorted_sortByLe_interLe (l : List Intersection) :
    (sortByLe interLe l).Pairwise (fun a b => interLe a b = true) :=
  pairwise_sortByLe interLe interLe_total
    (fun _ _ _ h1 h2 => interLe_trans h1 h2) l

theorem testIntersection_sorted (t : Tesselator) (edge : SpanEdge)
    (up down : Vertex) (h : InterSorted t) :
    InterSorted (t.testIntersection edge up down) := by
  unfold Tesselator.testIntersection
  split
  · split
    · exact h
    · exact sorted_sortByLe_interLe _
  · exact h

theorem ite_testIntersection_sorted (c : Prop) [Decidable c] (t : Tesselator)
    (edge : SpanEdge) (up down : Vertex) (h : InterSorted t) :
    InterSorted (if c then t.testIntersection edge up down else t) := by
  split
  · exact testIntersection_sorted t edge up down h
  · exact h

theorem checkIntersectionsLoop_sorted (spanIndex : ℕ) (side : Side)
    (up down : Vertex) :
    ∀ (spans : List Span) (idx : ℕ) (s : Tesselator), InterSorted s →
      InterSorted (checkIntersectionsLoop spanIndex side up down s idx spans) := by
  intro spans
  induction spans with
  | nil => intro idx s h; exact h
  | cons sp rest ih =>
    intro idx s h
    rw [checkIntersectionsLoop]
    exact ih (idx + 1) _
      (ite_testIntersection_sorted _ _ _ _ _
        (ite_testIntersection_sorted _ _ _ _ _ h))

theorem checkIntersections_sorted (t : Tesselator) (spanIndex : ℕ)
    (side : Side) (up down : Vertex) (h : InterSorted t) :
    InterSorted (t.checkIntersections spanIndex side up down) :=
  checkIntersectionsLoop_sorted spanIndex side up down t.spans 0 t h

theorem insertEdge_sorted {t : Tesselator} {i : ℕ} {side : Side}
    {up down : Vertex} {t' : Tesselator}
    (hok : t.insertEdge i side up down = .ok t') (h : InterSorted t) :
    InterSorted t' := by
  unfold Tesselator.insertEdge at hok
  dsimp only at hok
  split at hok
  · exact Except.noConfusion hok
  · cases hok
    exact checkIntersections_sorted t i side up down h

theorem insertEdgeNoIntersection_inter {t : Tesselator} {i : ℕ} {side : Side}
    {up down : Vertex} {t' : Tesselator}
    (hok : t.insertEdgeNoIntersection i side up down = .ok t') :
    t'.intersections = t.intersections := by
  unfold Tesselator.insertEdgeNoIntersection at hok
  split at hok
  · exact Except.noConfusion hok
  · cases hok
    rfl

theorem endSpan_inter {t : Tesselator} {i : ℕ} {v : Vertex} {t' : Tesselator}
    (hok : t.endSpan i v = .ok t') : t'.intersections = t.intersections := by
  unfold Tesselator.endSpan at hok
  split at hok
  · exact Except.noConfusion hok
  · split at hok
    · exact Except.noConfusion hok
    · cases hok
      rfl

theorem onLeftEventNoIntersection_inter {t : Tesselator} {i : ℕ}
    {current next : Vertex} {t' : Tesselator}
    (hok : t.onLeftEventNoIntersection i current next = .ok t') :
    t'.intersections = t.intersections := by
  unfold Tesselator.onLeftEventNoIntersection at hok
  split at hok
  · exact Except.noConfusion hok
  · split at hok
    · split at hok
      · exact Except.noConfusion hok
      · split at hok
        · exact Except.noConfusion hok
        · rename_i t1 _ _ _
          rw [insertEdgeNoIntersection_inter hok]
          rw [endSpan_inter (by assumption)]
    · exact insertEdgeNoIntersection_inter hok

theorem onRightEventNoIntersection_inter {t : Tesselator} {i : ℕ}
    {current next : Vertex} {t' : Tesselator}
    (hok : t.onRightEventNoIntersection i current next = .ok t') :
    t'.intersections = t.intersections :=
  insertEdgeNoIntersection_inter hok

theorem onEndEvent_inter {t : Tesselator} {v : Vertex} {i : ℕ}
    {t' : Tesselator} (hok : t.onEndEvent v i = .ok t') :
    t'.intersections = t.intersections := by
  unfold Tesselator.onEndEvent at hok
  split at hok
  · exact Except.noConfusion hok
  · split at hok
    · split at hok
      · exact Except.noConfusion hok
      · rw [endSpan_inter hok]
        rw [endSpan_inter (by assumption)]
    · exact endSpan_inter hok

theorem onMergeEventStep_inter {t : Tesselator} {sp : Span} {i : ℕ}
    {v : Vertex} {t1 : Tesselator}
    (hok : t.onMergeEventStep sp i v = .ok t1) :
    t1.intersections = t.intersections := by
  unfold Tesselator.onMergeEventStep at hok
  split at hok
  · split at hok
    · exact Except.noConfusion hok
    · rw [endSpan_inter hok]
  · cases hok
    rfl

theorem onMergeEvent_inter {t : Tesselator} {v : Vertex} {i : ℕ}
    {t' : Tesselator} (hok : t.onMergeEvent v i = .ok t') :
    t'.intersections = t.intersections := by
  unfold Tesselator.onMergeEvent at hok
  split at hok
  · split at hok
    · exact Except.noConfusion hok
    · split at hok
      · exact Except.noConfusion hok
      · rename_i t1 hstep
        split at hok
        · exact Except.noConfusion hok
        · split at hok
          · split at hok
            · exact Except.noConfusion hok
            · split at hok
              · exact Except.noConfusion hok
              · cases hok
                exact (onMergeEventStep_inter hstep :
                  t1.intersections = t.intersections)
          · exact Except.noConfusion hok
  · exact Except.noConfusion hok

theorem onIntersectionEventLoop_inter (inter : Intersection) :
    ∀ (spans : List Span) (idx : ℕ) (t t' : Tesselator),
      onIntersectionEventLoop inter t idx spans = .ok t' →
      t'.intersections = t.intersections := by
  intro spans
  induction spans with
  | nil =>
    intro idx t t' hok
    exact Except.noConfusion hok
  | cons sp rest ih =>
    intro idx t t' hok
    rw [onIntersectionEventLoop] at hok
    split at hok
    · split at hok
      · exact Except.noConfusion hok
      · rw [onLeftEventNoIntersection_inter hok]
        rw [onRightEventNoIntersection_inter (by assumption)]
    · split at hok
      · split at hok
        · exact Except.noConfusion hok
        · cases hok
          rw [show ∀ (s : Tesselator) (sp' : List Span),
              ({ s with spans := sp' } : Tesselator).intersections =
              s.intersections from fun _ _ => rfl]
          rw [onEndEvent_inter (by assumption)]
      · exact ih (idx + 1) t t' hok

theorem onIntersectionEvent_inter {t : Tesselator} {inter : Intersection}
    {t' : Tesselator} (hok : t.onIntersectionEvent inter = .ok t') :
    t'.intersections = t.intersections :=
  onIntersectionEventLoop_inter inter t.spans 0 t t' hok

theorem onLeftEvent_sorted {t : Tesselator} {i : ℕ} {current next : Vertex}
    {t' : Tesselator} (hok : t.onLeftEvent i current next = .ok t')
    (h : InterSorted t) : InterSorted t' := by
  unfold Tesselator.onLeftEvent at hok
  split at hok
  · exact Except.noConfusion hok
  · split at hok
    · split at hok
      · exact Except.noConfusion hok
      · split at hok
        · exact Except.noConfusion hok
        · refine insertEdge_sorted hok ?_
          unfold InterSorted
          rw [endSpan_inter (by assumption)]
          exact h
    · exact insertEdge_sorted hok h

theorem onRightEvent_sorted {t : Tesselator} {i : ℕ} {current next : Vertex}
    {t' : Tesselator} (hok : t.onRightEvent i current next = .ok t')
    (h : InterSorted t) : InterSorted t' :=
  insertEdge_sorted hok h

theorem onRegularEvent_sorted {t : Tesselator} {current next : Vertex}
    {t' : Tesselator} (hok : t.onRegularEvent current next = .ok t')
    (h : InterSorted t) : InterSorted t' := by
  unfold Tesselator.onRegularEvent at hok
  split at hok
  · exact Except.noConfusion hok
  · split at hok
    · exact onLeftEvent_sorted hok h
    · exact onRightEvent_sorted hok h

theorem onDownEvent_sorted {t : Tesselator} {v : Vertex} {t' : Tesselator}
    (hok : t.onDownEvent v = .ok t') (h : InterSorted t) : InterSorted t' := by
  unfold Tesselator.onDownEvent at hok
  split at hok
  · exact Except.noConfusion hok
  · split at hok
    · split at hok
      · unfold InterSorted
        rw [onEndEvent_inter hok]
        exact h
      · unfold InterSorted
        rw [onMergeEvent_inter hok]
        exact h
    · exact Except.noConfusion hok

theorem onSplitEvent_sorted {t : Tesselator} {evt : Event} {i : ℕ}
    {l r : SpanEdge} {t' : Tesselator}
    (hok : t.onSplitEvent evt i l r = .ok t') (h : InterSorted t) :
    InterSorted t' := by
  unfold Tesselator.onSplitEvent at hok
  split at hok
  · exact Except.noConfusion hok
  · split at hok
    · split at hok
      · exact Except.noConfusion hok
      · split at hok
        · exact Except.noConfusion hok
        · split at hok
          · exact Except.noConfusion hok
          · cases hok
            exact h
    · dsimp only at hok
      split at hok
      · exact Except.noConfusion hok
      · rename_i t1 hmid
        exact insertEdge_sorted hok
          (insertEdge_sorted hmid (show InterSorted _ from h))

theorem onUpEvent_sorted {t : Tesselator} {evt : Event} {t' : Tesselator}
    (hok : t.onUpEvent evt = .ok t') (h : InterSorted t) : InterSorted t' := by
  unfold Tesselator.onUpEvent at hok
  dsimp only at hok
  split at hok
  · exact onSplitEvent_sorted hok h
  · cases hok
    exact checkIntersections_sorted _ _ _ _ _
      (checkIntersections_sorted _ _ _ _ _ h)

theorem onEvent_sorted {t : Tesselator} {evt : Event} {t' : Tesselator}
    (hok : t.onEvent evt = .ok t') (h : InterSorted t) : InterSorted t' := by
  unfold Tesselator.onEvent at hok
  dsimp only at hok
  split at hok
  · exact onDownEvent_sorted hok h
  · split at hok
    · exact onUpEvent_sorted hok h
    · exact onRegularEvent_sorted hok h

theorem drain_spec (cur : Vec2) :
    ∀ (fuel : ℕ) (t t' : Tesselator), InterSorted t →
      t.drainIntersections cur fuel = .ok t' →
      InterSorted t' ∧ (t.intersections.length ≤ fuel →
        ∀ p ∈ t'.intersections, isBelow cur p.point.position = false) := by
  intro fuel
  induction fuel with
  | zero =>
    intro t t' h hok
    cases hok
    refine ⟨h, fun hlen p hp => ?_⟩
    rw [List.length_eq_zero.mp (Nat.le_zero.mp hlen)] at hp
    cases hp
  | succ fuel ih =>
    intro t t' h hok
    rw [Tesselator.drainIntersections] at hok
    split at hok
    · rename_i hnil
      cases hok
      refine ⟨h, fun _ p hp => ?_⟩
      rw [hnil] at hp
      cases hp
    · rename_i inter rest hint
      split at hok
      · split at hok
        · exact Except.noConfusion hok
        · rename_i t1 hrep
          have hsort1 : InterSorted t1 := by
            unfold InterSorted
            rw [onIntersectionEvent_inter hrep]
            have := h
            unfold InterSorted at this
            rw [hint] at this
            exact (List.pairwise_cons.mp this).2
          rcases ih t1 t' hsort1 hok with ⟨h1, h2⟩
          refine ⟨h1, fun hlen p hp => ?_⟩
          refine h2 ?_ p hp
          rw [onIntersectionEvent_inter hrep]
          show rest.length ≤ fuel
          have hlen2 : t.intersections.length = rest.length + 1 := by
            rw [hint]
            rfl
          omega
      · cases hok
        rename_i hbel
        refine ⟨h, fun _ p hp => ?_⟩
        have hhead : isBelow cur inter.point.position = false :=
          Bool.not_eq_true _ ▸ (by simpa using hbel)
        rw [hint] at hp
        rcases List.mem_cons.mp hp with rfl | hp
        · exact hhead
        · have hsorted := h
          unfold InterSorted at hsorted
          rw [hint] at hsorted
          have hle : interLe inter p = true :=
            (List.pairwise_cons.mp hsorted).1 p hp
          exact not_isBelow_of_eventLe
            (eventLe_trans (eventLe_of_not_isBelow hhead) hle)

/-- Claim C4: the intersection queue starts empty (sorted); draining before a
main event removes and replays every queued intersection whose point strictly
precedes the event vertex in the `(y, x)` order — afterwards no remaining
entry precedes it — and both the drain and the event handling preserve the
queue's `(y, x)` sortedness, so the queue is sorted at every step of
`Tesselator::tesselate`. -/
theorem claim4_queue_discipline (t : Tesselator) (e : PathVertexId)
    (hs : InterSorted t) :
    (∀ p : MPath, ∀ o : VOutput, InterSorted (Tesselator.new p o)) ∧
    (∀ t', t.drainIntersections (mkEvent t.path e).current.position
        t.intersections.length = .ok t' →
      InterSorted t' ∧
      ∀ p ∈ t'.intersections,
        isBelow (mkEvent t.path e).current.position p.point.position = false) ∧
    (∀ t'', t.processEvent e = .ok t'' → InterSorted t'') := by
  refine ⟨fun p o => List.Pairwise.nil, ?_, ?_⟩
  · intro t' hok
    rcases drain_spec _ _ t t' hs hok with ⟨h1, h2⟩
    exact ⟨h1, h2 (le_refl _)⟩
  · intro t'' hok
    unfold Tesselator.processEvent at hok
    dsimp only at hok
    split at hok
    · exact Except.noConfusion hok
    · rename_i t1 hdrain
      exact onEvent_sorted hok (drain_spec _ _ t t1 hs hdrain).1

/-- Witness for C4 at a fresh tessellation state for a concrete triangle. -/
theorem claim4_queue_discipline_witness :
    InterSorted (Tesselator.new ⟨[[⟨0, 0⟩, ⟨1, 1⟩, ⟨0, 2⟩]]⟩ ⟨[], []⟩) ∧
    (∀ t'', (Tesselator.new ⟨[[⟨0, 0⟩, ⟨1, 1⟩, ⟨0, 2⟩]]⟩
        ⟨[], []⟩).processEvent ⟨0, 0⟩ = .ok t'' → InterSorted t'') :=
  ⟨List.Pairwise.nil,
   (claim4_queue_discipline (Tesselator.new ⟨[[⟨0, 0⟩, ⟨1, 1⟩, ⟨0, 2⟩]]⟩
     ⟨[], []⟩) ⟨0, 0⟩ List.Pairwise.nil).2.2⟩

end Vodk
